import Mathlib

/-!
Verification of the rgbfix header fix-up engine (src/fix/main.c).

The development shallowly embeds the two cores of the program:

1. the MBC specification parser `parseMBC` (main.c lines 130-439) together
   with the catalog function `mbcName` (lines 441-510), modelling C strings
   as lists of byte values (`List Nat`);

2. the per-image processing pipeline `processFile` (lines 656-912),
   modelling the image as a list of byte values and the two I/O modes
   (seekable in-place file versus distinct input/output pipes) by a
   boolean flag, with ideal I/O (reads return the available data and
   writes succeed), which is the regime all functional claims speak about.

Machine integers are embedded as `Nat` with explicit `% 2 ^ w`
reductions at the points where the C code relies on wrap-around.
C loops are embedded as structurally recursive functions, with an
explicit fuel argument whenever the loop is not structural in its input;
the fuel supplied is always strictly larger than the number of
iterations the loop can perform, so the out-of-fuel branch is dead.
-/

/-! ## Byte-level character constants

C strings are lists of byte values.  `strBytes` converts a Lean string
literal consisting of ASCII characters to that representation so that
concrete test inputs can be written legibly.
-/

def strBytes (s : String) : List Nat := s.toList.map Char.toNat

/-! ## The MBC type parser, main.c lines 130-439

Codes are the values of `enum MbcType` (lines 82-128); the four sentinel
error values follow the C enumeration, where `MBC_NONE = UNSPECIFIED =
0x100` and the later enumerators count up from it.
-/

def UNSPECIFIED : Nat := 0x100

def MBC_NONE : Nat := 0x100

def MBC_BAD : Nat := 0x101

def MBC_WRONG_FEATURES : Nat := 0x102

def MBC_BAD_RANGE : Nat := 0x103

/-- Character transformation performed inside `readMBCSlice`
(main.c lines 141-144): lowercase letters are uppercased and an
underscore becomes a space.  All other bytes are left alone. -/
def canon (c : Nat) : Nat :=
  if 97 ≤ c ∧ c ≤ 122 then c - 32
  else if c = 95 then 32
  else c

/-- main.c lines 133-150: compare the head of `name` against the expected
string, case-insensitively and with underscores read as spaces, returning
the remaining input on success.  Reaching the end of the input before the
expected string is exhausted is a failure (name too short). -/
def readMBCSlice : List Nat → List Nat → Option (List Nat)
  | rest, [] => some rest
  | [], _ :: _ => none
  | c :: name, e :: expected =>
    if canon c = e then readMBCSlice name expected else none

/-- Skip over spaces and tabs (main.c lines 171-172 and 429-431). -/
def trimLead : List Nat → List Nat
  | c :: rest => if c = 32 ∨ c = 9 then trimLead rest else c :: rest
  | [] => []

/-- Skip over spaces, tabs and underscores (main.c lines 185-186,
286-287 and 296-297). -/
def skipSep : List Nat → List Nat
  | c :: rest => if c = 32 ∨ c = 9 ∨ c = 95 then skipSep rest else c :: rest
  | [] => []

/-- First-letter dispatch reading the MBC base type (main.c lines
180-274).  Returns the base code together with the unconsumed input, or
`none` for `MBC_BAD`.  Reading past the terminating NUL of the C string
corresponds to matching an empty list. -/
def parseBase : List Nat → Option (Nat × List Nat)
  | [] => none
  | c :: rest =>
    if c = 82 ∨ c = 114 then -- R: ROM, optionally followed by ONLY
      match readMBCSlice rest (strBytes "OM") with
      | none => none
      | some r1 =>
        match skipSep r1 with
        | c2 :: r3 =>
          if c2 = 79 ∨ c2 = 111 then
            (readMBCSlice r3 (strBytes "NLY")).map (fun r4 => (0x00, r4))
          else some (0x00, c2 :: r3)
        | [] => some (0x00, [])
    else if c = 77 ∨ c = 109 then -- M: MBC{1,2,3,5,6,7} or MMM01
      match rest with
      | c2 :: r2 =>
        if c2 = 66 ∨ c2 = 98 then
          match r2 with
          | c3 :: r3 =>
            if c3 = 67 ∨ c3 = 99 then
              match r3 with
              | c4 :: r4 =>
                if c4 = 49 then some (0x01, r4) -- MBC1
                else if c4 = 50 then some (0x05, r4) -- MBC2
                else if c4 = 51 then some (0x11, r4) -- MBC3
                else if c4 = 53 then some (0x19, r4) -- MBC5
                else if c4 = 54 then some (0x20, r4) -- MBC6
                else if c4 = 55 then some (0x22, r4) -- MBC7
                else none
              | [] => none
            else none
          | [] => none
        else if c2 = 77 ∨ c2 = 109 then
          (readMBCSlice r2 (strBytes "M01")).map (fun r => (0x0B, r))
        else none
      | [] => none
    else if c = 80 ∨ c = 112 then -- P: POCKET CAMERA
      (readMBCSlice rest (strBytes "OCKET CAMERA")).map (fun r => (0xFC, r))
    else if c = 66 ∨ c = 98 then -- B: BANDAI TAMA5
      (readMBCSlice rest (strBytes "ANDAI TAMA5")).map (fun r => (0xFD, r))
    else if c = 84 ∨ c = 116 then -- T: TAMA5
      (readMBCSlice rest (strBytes "AMA5")).map (fun r => (0xFD, r))
    else if c = 72 ∨ c = 104 then -- H: HuC1 / HuC3
      match readMBCSlice rest (strBytes "UC") with
      | none => none
      | some r1 =>
        match r1 with
        | c2 :: r2 =>
          if c2 = 49 then some (0xFF, r2)
          else if c2 = 51 then some (0xFE, r2)
          else none
        | [] => none
    else none

/-- Feature bit masks, main.c lines 278-282. -/
def RAMfeat : Nat := 0x80

def BATTERYfeat : Nat := 0x40

def TIMERfeat : Nat := 0x20

def RUMBLEfeat : Nat := 0x10

def SENSORfeat : Nat := 0x08

/-- Read one feature token after a `+` (main.c lines 299-340), returning
its bit mask and the unconsumed input. -/
def parseOneFeature : List Nat → Option (Nat × List Nat)
  | [] => none
  | c :: rest =>
    if c = 66 ∨ c = 98 then -- BATTERY
      (readMBCSlice rest (strBytes "ATTERY")).map (fun r => (BATTERYfeat, r))
    else if c = 82 ∨ c = 114 then -- RAM or RUMBLE
      match rest with
      | c2 :: r2 =>
        if c2 = 85 ∨ c2 = 117 then
          (readMBCSlice r2 (strBytes "MBLE")).map (fun r => (RUMBLEfeat, r))
        else if c2 = 65 ∨ c2 = 97 then
          match r2 with
          | c3 :: r3 => if c3 = 77 ∨ c3 = 109 then some (RAMfeat, r3) else none
          | [] => none
        else none
      | [] => none
    else if c = 83 ∨ c = 115 then -- SENSOR
      (readMBCSlice rest (strBytes "ENSOR")).map (fun r => (SENSORfeat, r))
    else if c = 84 ∨ c = 116 then -- TIMER
      (readMBCSlice rest (strBytes "IMER")).map (fun r => (TIMERfeat, r))
    else none

/-- The feature-reading loop of main.c lines 284-341.  Each iteration
trims separators, stops at the end of the input, demands a `+`, trims
again and reads one feature token.  The loop consumes at least one byte
per iteration, so fuel exceeding the input length cannot run out. -/
def readFeaturesF : Nat → List Nat → Nat → Option Nat
  | 0, _, _ => none
  | fuel + 1, ptr, features =>
    match skipSep ptr with
    | [] => some features
    | c :: rest =>
      if c = 43 then
        match parseOneFeature (skipSep rest) with
        | none => none
        | some (f, rest2) => readFeaturesF fuel rest2 (features ||| f)
      else none

def readFeatures (ptr : List Nat) (features : Nat) : Option Nat :=
  readFeaturesF (ptr.length + 1) ptr features

/-- Shared RAM feature handling (main.c lines 355-363, repeated at
383-388 and 401-406): `RAM` bumps the code by one, `RAM|BATTERY` by two,
any other nonempty feature set is rejected. -/
def ramStep (mbc features : Nat) : Nat :=
  if features = RAMfeat then mbc + 1
  else if features = (RAMfeat ||| BATTERYfeat) then mbc + 2
  else if features ≠ 0 then MBC_WRONG_FEATURES
  else mbc

/-- Validation of the feature set against the base type, main.c lines
344-427.  The `ROM` case falls through into the MBC1/MMM01 handling with
the code set to `ROM_RAM - 1`.  Note that line 374 tests
`features & (TIMER & BATTERY)`, and `TIMER & BATTERY == 0`, so the MBC3
timer branch is never taken; the embedding reproduces this faithfully. -/
def applyFeatures (mbc features : Nat) : Nat :=
  if mbc = 0x00 then -- ROM
    if features = 0 then mbc
    else ramStep (0x08 - 1) features -- mbc = ROM_RAM - 1, then fallthrough
  else if mbc = 0x01 ∨ mbc = 0x0B then -- MBC1, MMM01
    ramStep mbc features
  else if mbc = 0x05 then -- MBC2
    if features = BATTERYfeat then 0x06
    else if features ≠ 0 then MBC_WRONG_FEATURES
    else mbc
  else if mbc = 0x11 then -- MBC3; line 374 computes TIMER & BATTERY = 0
    if features &&& (TIMERfeat &&& BATTERYfeat) ≠ 0 then
      ramStep 0x0F (features &&& (0xFF ^^^ (TIMERfeat ||| BATTERYfeat)))
    else ramStep mbc features
  else if mbc = 0x19 then -- MBC5
    if features &&& RUMBLEfeat ≠ 0 then
      ramStep 0x1C (features &&& (0xFF ^^^ RUMBLEfeat))
    else ramStep mbc features
  else if mbc = 0x20 ∨ mbc = 0xFC ∨ mbc = 0xFD ∨ mbc = 0xFE then
    -- MBC6, POCKET CAMERA, BANDAI TAMA5, HuC3: no extra features accepted
    if features ≠ 0 then MBC_WRONG_FEATURES else mbc
  else if mbc = 0x22 then -- MBC7
    if features ≠ (SENSORfeat ||| RUMBLEfeat ||| RAMfeat ||| BATTERYfeat) then
      MBC_WRONG_FEATURES
    else mbc
  else if mbc = 0xFF then -- HuC1
    if features ≠ (RAMfeat ||| BATTERYfeat) then MBC_WRONG_FEATURES else mbc
  else mbc

/-- Symbolic branch of the parser after the leading trim: base type,
feature loop, then feature validation (when the feature loop finishes the
cursor is at the end of the input, so the final trailing-space check of
main.c lines 429-435 can never fire). -/
def afterTrim (s : List Nat) : Nat :=
  match parseBase s with
  | none => MBC_BAD
  | some (mbc, rest) =>
    match readFeatures rest 0 with
    | none => MBC_BAD
    | some features => applyFeatures mbc features

/-- Symbolic branch of `parseMBC` (main.c lines 165-438). -/
def parseMBCSym (name : List Nat) : Nat :=
  afterTrim (trimLead name)

/-- Maximal run of decimal digits, accumulating the value. -/
def digitsDec : List Nat → Nat → Nat × List Nat
  | c :: rest, acc =>
    if 48 ≤ c ∧ c ≤ 57 then digitsDec rest (acc * 10 + (c - 48)) else (acc, c :: rest)
  | [], acc => (acc, [])

/-- Maximal run of octal digits, accumulating the value. -/
def digitsOct : List Nat → Nat → Nat × List Nat
  | c :: rest, acc =>
    if 48 ≤ c ∧ c ≤ 55 then digitsOct rest (acc * 8 + (c - 48)) else (acc, c :: rest)
  | [], acc => (acc, [])

def hexVal (c : Nat) : Option Nat :=
  if 48 ≤ c ∧ c ≤ 57 then some (c - 48)
  else if 65 ≤ c ∧ c ≤ 70 then some (c - 55)
  else if 97 ≤ c ∧ c ≤ 102 then some (c - 87)
  else none

/-- Maximal run of hexadecimal digits, accumulating the value. -/
def digitsHex : List Nat → Nat → Nat × List Nat
  | c :: rest, acc =>
    match hexVal c with
    | some v => digitsHex rest (acc * 16 + v)
    | none => (acc, c :: rest)
  | [], acc => (acc, [])

/-- `strtoul(name, &endptr, 0)` on an input whose first byte is a decimal
digit: a `0x`/`0X` prefix followed by at least one hexadecimal digit
selects base 16, a bare leading `0` selects base 8, anything else base
10.  A `0x` prefix with no hexadecimal digit after it consumes only the
`0`.  Returns the value and the unconsumed input (`endptr`). -/
def strtoul0 : List Nat → Nat × List Nat
  | 48 :: c :: rest =>
    if c = 120 ∨ c = 88 then
      match rest with
      | d :: _ =>
        if (hexVal d).isSome then digitsHex rest 0 else (0, c :: rest)
      | [] => (0, c :: rest)
    else digitsOct (c :: rest) 0
  | 48 :: [] => (0, [])
  | l => digitsDec l 0

/-- main.c lines 152-439: parse an MBC specification.  A token starting
with a decimal digit is parsed as a number (lines 154-163); everything
else goes through the symbolic grammar. -/
def parseMBC (name : List Nat) : Nat :=
  match name with
  | c :: _ =>
    if 48 ≤ c ∧ c ≤ 57 then
      let p := strtoul0 name
      if p.2 ≠ [] then MBC_BAD
      else if p.1 > 0xFF then MBC_BAD_RANGE
      else p.1
    else parseMBCSym name
  | [] => parseMBCSym []

/-- main.c lines 441-510: display name of each canonical hardware type
code.  The error sentinels and the byte values that are not enumerators
reach `unreachable_()` in the C code; the embedding returns `none` for
them. -/
def mbcName : Nat → Option (List Nat)
  | 0x00 => some (strBytes "ROM")
  | 0x08 => some (strBytes "ROM+RAM")
  | 0x09 => some (strBytes "ROM+RAM+BATTERY")
  | 0x01 => some (strBytes "MBC1")
  | 0x02 => some (strBytes "MBC1+RAM")
  | 0x03 => some (strBytes "MBC1+RAM+BATTERY")
  | 0x05 => some (strBytes "MBC2")
  | 0x06 => some (strBytes "MBC2+BATTERY")
  | 0x0B => some (strBytes "MMM01")
  | 0x0C => some (strBytes "MMM01+RAM")
  | 0x0D => some (strBytes "MMM01+RAM+BATTERY")
  | 0x11 => some (strBytes "MBC3")
  | 0x0F => some (strBytes "MBC3+TIMER+BATTERY")
  | 0x10 => some (strBytes "MBC3+TIMER+RAM+BATTERY")
  | 0x12 => some (strBytes "MBC3+RAM")
  | 0x13 => some (strBytes "MBC3+RAM+BATTERY")
  | 0x19 => some (strBytes "MBC5")
  | 0x1A => some (strBytes "MBC5+RAM")
  | 0x1B => some (strBytes "MBC5+RAM+BATTERY")
  | 0x1C => some (strBytes "MBC5+RUMBLE")
  | 0x1D => some (strBytes "MBC5+RUMBLE+RAM")
  | 0x1E => some (strBytes "MBC5+RUMBLE+RAM+BATTERY")
  | 0x20 => some (strBytes "MBC6")
  | 0x22 => some (strBytes "MBC7+SENSOR+RUMBLE+RAM+BATTERY")
  | 0xFC => some (strBytes "POCKET CAMERA")
  | 0xFD => some (strBytes "BANDAI TAMA5")
  | 0xFE => some (strBytes "HUC3")
  | 0xFF => some (strBytes "HUC1+RAM+BATTERY")
  | _ => none

/-! ## The per-image processing pipeline, main.c lines 656-912

The image is a list of byte values.  `sk = true` models the seekable
in-place case (`input == output`, file size known and equal to the length
of `data`); `sk = false` models the pipe case (distinct handles, size
unknown, the data arrives as a stream).  I/O is ideal: reads return the
data that is available and writes succeed, which is the regime the
functional claims describe.
-/

def BANK_SIZE : Nat := 0x4000

def FIX_LOGO : Nat := 0x80

def TRASH_LOGO : Nat := 0x40

def FIX_HEADER_SUM : Nat := 0x20

def TRASH_HEADER_SUM : Nat := 0x10

def FIX_GLOBAL_SUM : Nat := 0x08

def TRASH_GLOBAL_SUM : Nat := 0x04

/-- The resolved configuration the engine receives from the (excluded)
command-line layer: the globals of main.c lines 578-598.  Optional string
fields carry the already-truncated bytes (`title`/`titleLen` and so on);
the `Nat` fields use `UNSPECIFIED = 0x100` as the absent marker exactly
like the C code. -/
structure Config where
  fixSpec : Nat
  title : Option (List Nat)
  gameID : Option (List Nat)
  model : Nat -- 0 = DMG (leave byte alone), 1 = BOTH, 2 = CGB
  newLicensee : Option (List Nat)
  sgb : Bool
  cartridgeType : Nat
  ramSize : Nat
  japanese : Bool
  oldLicensee : Nat
  romVersion : Nat
  padValue : Nat

/-- Length bound on an optional byte-string field. -/
def optLenLE (o : Option (List Nat)) (n : Nat) : Prop :=
  match o with
  | some t => t.length ≤ n
  | none => True

instance : (o : Option (List Nat)) → (n : Nat) → Decidable (optLenLE o n)
  | some t, n => inferInstanceAs (Decidable (t.length ≤ n))
  | none, _ => inferInstanceAs (Decidable True)

/-- Well-formedness facts the excluded CLI layer guarantees (main.c
lines 994-1002, 1051-1065, 1071-1081, 1117-1128): the string fields have
been truncated to their field widths. -/
def Config.WF (cfg : Config) : Prop :=
  optLenLE cfg.title 16 ∧ optLenLE cfg.gameID 4 ∧ optLenLE cfg.newLicensee 2

instance (cfg : Config) : Decidable cfg.WF :=
  inferInstanceAs (Decidable (_ ∧ _ ∧ _))

/-- The fixed 48-byte reference logo, main.c lines 569-576. -/
def ninLogo : List Nat :=
  [0xCE, 0xED, 0x66, 0x66, 0xCC, 0x0D, 0x00, 0x0B,
   0x03, 0x73, 0x00, 0x83, 0x00, 0x0C, 0x00, 0x0D,
   0x00, 0x08, 0x11, 0x1F, 0x88, 0x89, 0x00, 0x0E,
   0xDC, 0xCC, 0x6E, 0xE6, 0xDD, 0xDD, 0xD9, 0x99,
   0xBB, 0xBB, 0x67, 0x63, 0x6E, 0x0E, 0xEC, 0xCC,
   0xDD, 0xDC, 0x99, 0x9F, 0xBB, 0xB9, 0x33, 0x3E]

/-- `memcpy(&l[i], vs, vs.length)`: overwrite the bytes of `l` starting
at offset `i` with `vs`. -/
def setRange (l : List Nat) (i : Nat) (vs : List Nat) : List Nat :=
  l.take i ++ vs ++ l.drop (i + vs.length)

/-- Logo fix or trash, main.c lines 683-690.  A trash request writes the
bitwise complement of each logo byte (`~b` on uint8 is `255 - b`). -/
def editLogo (cfg : Config) (r : List Nat) : List Nat :=
  if cfg.fixSpec &&& (FIX_LOGO ||| TRASH_LOGO) ≠ 0 then
    if cfg.fixSpec &&& FIX_LOGO ≠ 0 then setRange r 0x104 ninLogo
    else setRange r 0x104 (ninLogo.map (fun b => 255 - b))
  else r

/-- main.c lines 692-693. -/
def editTitle (cfg : Config) (r : List Nat) : List Nat :=
  match cfg.title with
  | some t => setRange r 0x134 t
  | none => r

/-- main.c lines 695-696. -/
def editGameID (cfg : Config) (r : List Nat) : List Nat :=
  match cfg.gameID with
  | some g => setRange r 0x13f g
  | none => r

/-- main.c lines 698-699. -/
def editModel (cfg : Config) (r : List Nat) : List Nat :=
  if cfg.model ≠ 0 then r.set 0x143 (if cfg.model = 1 then 0x80 else 0xc0) else r

/-- main.c lines 701-702. -/
def editNewLicensee (cfg : Config) (r : List Nat) : List Nat :=
  match cfg.newLicensee with
  | some k => setRange r 0x144 k
  | none => r

/-- main.c lines 704-705. -/
def editSGB (cfg : Config) (r : List Nat) : List Nat :=
  if cfg.sgb then r.set 0x146 0x03 else r

/-- main.c lines 707-709: only a valid MBC code (below `MBC_NONE`) is
written. -/
def editCartType (cfg : Config) (r : List Nat) : List Nat :=
  if cfg.cartridgeType < MBC_NONE then r.set 0x147 cfg.cartridgeType else r

/-- main.c lines 711-712. -/
def editRamSize (cfg : Config) (r : List Nat) : List Nat :=
  if cfg.ramSize ≠ UNSPECIFIED then r.set 0x149 cfg.ramSize else r

/-- main.c lines 714-715. -/
def editRegion (cfg : Config) (r : List Nat) : List Nat :=
  if cfg.japanese = false then r.set 0x14a 0x01 else r

/-- main.c lines 717-718. -/
def editOldLicensee (cfg : Config) (r : List Nat) : List Nat :=
  if cfg.oldLicensee ≠ UNSPECIFIED then r.set 0x14b cfg.oldLicensee else r

/-- main.c lines 720-721. -/
def editRomVersion (cfg : Config) (r : List Nat) : List Nat :=
  if cfg.romVersion ≠ UNSPECIFIED then r.set 0x14c cfg.romVersion else r

/-- All header edits of main.c lines 683-721, in source order. -/
def applyEdits (cfg : Config) (r : List Nat) : List Nat :=
  editRomVersion cfg (editOldLicensee cfg (editRegion cfg (editRamSize cfg
    (editCartType cfg (editSGB cfg (editNewLicensee cfg (editModel cfg
      (editGameID cfg (editTitle cfg (editLogo cfg r))))))))))

/-- The ROMX copying loop for the pipe case, main.c lines 752-781:
read a bank at a time; a nonempty read first checks the 65536-bank cap
(failing with `none`), then counts the bank, accumulates the running
global checksum and appends the data; a short read ends the loop.  One
iteration consumes a full bank, so fuel `0x10001` suffices whenever the
cap check can fail first. -/
def copyROMXF : Nat → List Nat → Nat → List Nat → Nat → Option (Nat × List Nat × Nat)
  | 0, _, _, _, _ => none
  | fuel + 1, input, nbBanks, acc, gsum =>
    if min input.length BANK_SIZE ≠ 0 then -- bankLen = min input.length BANK_SIZE
      if nbBanks = 0x10000 then none
      else if min input.length BANK_SIZE = BANK_SIZE then
        copyROMXF fuel (input.drop BANK_SIZE) (nbBanks + 1)
          (acc ++ input.take BANK_SIZE) (gsum + (input.take BANK_SIZE).sum)
      else some (nbBanks + 1, acc ++ input.take BANK_SIZE,
                 gsum + (input.take BANK_SIZE).sum)
    else some (nbBanks, acc, gsum)

def copyROMX (input : List Nat) (nbBanks : Nat) (acc : List Nat) (gsum : Nat) :
    Option (Nat × List Nat × Nat) :=
  copyROMXF 0x10001 input nbBanks acc gsum

/-- Count of leading zeros of a 32-bit value (`clz` on uint32), for
nonzero arguments: 32 minus the bit length. -/
def clz32 (n : Nat) : Nat := 32 - Nat.size n

/-- Count of trailing zeros (`ctz`); the C call sites only use nonzero
arguments below 2 ^ 32, for which fuel 32 is ample. -/
def ctzF : Nat → Nat → Nat
  | 0, _ => 0
  | fuel + 1, n => if n % 2 = 1 ∨ n = 0 then 0 else ctzF fuel (n / 2) + 1

def ctz (n : Nat) : Nat := ctzF 32 n

/-- Padding plan, main.c lines 789-813: ensure at least two banks
(filling a short bank 0 with the pad value), round the bank count up to
a power of two using `1 << (32 - clz(nbBanks))` when it is not one
already, write the ROM size code `ctz(nbBanks / 2)` at 0x148, and add
the padding bytes to the running global checksum analytically.  Returns
the updated bank 0, bank count, and checksum accumulator. -/
def padStage (cfg : Config) (rom0 : List Nat) (nb0 rxLen g0 : Nat) :
    List Nat × Nat × Nat :=
  if cfg.padValue ≠ UNSPECIFIED then
    let pr :=
      if nb0 = 1 then
        ((if rom0.length ≠ BANK_SIZE
          then rom0 ++ List.replicate (BANK_SIZE - rom0.length) cfg.padValue
          else rom0), 2)
      else (rom0, nb0)
    let nb := if pr.2 &&& (pr.2 - 1) ≠ 0 then 1 <<< (32 - clz32 pr.2) else pr.2
    (pr.1.set 0x148 (ctz (nb / 2)), nb,
     g0 + cfg.padValue * ((nb - 1) * BANK_SIZE - rxLen))
  else (rom0, nb0, g0)

/-- The header checksum loop of main.c lines 817-820 over a buffer:
start from zero and subtract `b + 1` for each byte `b` at offsets 0x134
through 0x14C, with uint8 wrap-around. -/
def headerChecksumOf (r : List Nat) : Nat :=
  (List.range' 0x134 0x19).foldl (fun s i => (s + 256 - (r.getD i 0 + 1)) % 256) 0

/-- main.c lines 816-822: store the header checksum, or its uint8
complement (`~sum = 255 - sum`) for a trash request. -/
def fixHeaderSum (cfg : Config) (r : List Nat) : List Nat :=
  if cfg.fixSpec &&& (FIX_HEADER_SUM ||| TRASH_HEADER_SUM) ≠ 0 then
    let sum := headerChecksumOf r
    r.set 0x14d (if cfg.fixSpec &&& TRASH_HEADER_SUM ≠ 0 then 255 - sum else sum)
  else r

/-- main.c lines 824-846: zero the two storage bytes, add every byte of
bank 0 to the accumulator, add the rest of the file for the seekable
case (pipes already accumulated their ROMX while copying), reduce to 16
bits, complement (`~g = 65535 - g`) for a trash request and store big
endian at 0x14E-0x14F. -/
def fixGlobalSum (cfg : Config) (sk : Bool) (data : List Nat) (r : List Nat)
    (gsumIn : Nat) : List Nat :=
  if cfg.fixSpec &&& (FIX_GLOBAL_SUM ||| TRASH_GLOBAL_SUM) ≠ 0 then
    let z := (r.set 0x14e 0).set 0x14f 0
    let g := (gsumIn + z.sum + (if sk then (data.drop BANK_SIZE).sum else 0)) % 0x10000
    let gg := if cfg.fixSpec &&& TRASH_GLOBAL_SUM ≠ 0 then 0xFFFF - g else g
    (z.set 0x14e (gg / 0x100)).set 0x14f (gg % 0x100)
  else r

/-- Write-back, main.c lines 848-908.  In place (`sk`), the file is
rewound and only the 0x150-byte header prefix is rewritten unless
padding resized bank 0, and padding is appended at the end of the file;
streamed, the whole bank 0 buffer, the buffered ROMX banks and the
padding are written in order. -/
def writeBack (cfg : Config) (sk : Bool) (data : List Nat) (rom0 : List Nat)
    (romx : List Nat) (nbBanks rxLen : Nat) : List Nat :=
  let padBytes :=
    if cfg.padValue ≠ UNSPECIFIED
    then List.replicate ((nbBanks - 1) * BANK_SIZE - rxLen) cfg.padValue
    else []
  if sk then
    let writeLen := if cfg.padValue = UNSPECIFIED then 0x150 else rom0.length
    rom0.take writeLen ++ data.drop writeLen ++ padBytes
  else rom0 ++ romx ++ padBytes

/-- Pipeline stages after the bank topology is known: padding plan,
header checksum, global checksum, write-back (main.c lines 789-908). -/
def finishFile (cfg : Config) (sk : Bool) (data rom0 : List Nat)
    (nb0 : Nat) (romx : List Nat) (rxLen g0 : Nat) : List Nat :=
  match padStage cfg rom0 nb0 rxLen g0 with
  | (rom0p, nbBanks, gsum) =>
    writeBack cfg sk data
      (fixGlobalSum cfg sk data (fixHeaderSum cfg rom0p) gsum) romx nbBanks rxLen

/-- Outcome of processing one image.  The two fatal outcomes are the
ones reachable under ideal I/O: an image shorter than the 0x150-byte
header, and the 65536-bank cap; both happen before any write. -/
inductive ProcOut where
  | fatalTooShort : ProcOut
  | fatalTooManyBanks : ProcOut
  | ok : List Nat → ProcOut
deriving DecidableEq

/-- Payload of a successful outcome. -/
def okPayload : ProcOut → List Nat
  | ProcOut.ok l => l
  | _ => []

/-- main.c lines 662-912, `processFile` under ideal I/O.  Bank 0 is the
first 16 KiB of the data; an image below 0x150 bytes is fatal before any
edit.  Seekable files derive the bank count from the file size and fail
when `fileSize >= 0x10000 * BANK_SIZE` (lines 739-749); pipes whose bank
0 filled completely stream the remaining banks through `copyROMX`
(lines 750-781). -/
def processFile (cfg : Config) (sk : Bool) (data : List Nat) : ProcOut :=
  let rom0Init := data.take BANK_SIZE
  if rom0Init.length < 0x150 then ProcOut.fatalTooShort
  else
    let rom0 := applyEdits cfg rom0Init
    if sk then
      if data.length ≥ 0x10000 * BANK_SIZE then ProcOut.fatalTooManyBanks
      else
        ProcOut.ok (finishFile cfg sk data rom0
          ((data.length + (BANK_SIZE - 1)) / BANK_SIZE) []
          (if data.length ≥ BANK_SIZE then data.length - BANK_SIZE else 0) 0)
    else if rom0Init.length = BANK_SIZE then
      match copyROMX (data.drop BANK_SIZE) 1 [] 0 with
      | none => ProcOut.fatalTooManyBanks
      | some (nb, romx, g) =>
        ProcOut.ok (finishFile cfg sk data rom0 nb romx romx.length g)
    else ProcOut.ok (finishFile cfg sk data rom0 1 [] 0 0)

/-! ## The error counter, main.c lines 555-567 and 916-961

`report` increments the per-image `uint8_t nbErrors` only while it is
below `UINT8_MAX`, so the counter saturates at 255.  `processFilename`
resets the counter, processes the image, and returns the final counter
value (nonzero meaning failure). -/

def reportStep (nbErrors : Nat) : Nat :=
  if nbErrors ≠ 255 then nbErrors + 1 else nbErrors

/-- Value of `nbErrors` after `n` calls to `report`, starting from the
reset performed at the top of `processFilename`. -/
def nbErrorsAfter : Nat → Nat
  | 0 => 0
  | n + 1 => reportStep (nbErrorsAfter n)

/-! ## Shared concrete configurations used by witnesses -/

/-- The all-absent configuration: no fix spec, no field edits, no pad. -/
def cfgNone : Config :=
  ⟨0, none, none, 0, none, false, 0x100, 0x100, true, 0x100, 0x100, 0x100⟩

/-! ## Claim theorems -/

/-- C1: the claim states that for base type MBC3 the parser accepts
`{TIMER,BATTERY}` (code 0x0F) and `{TIMER,RAM,BATTERY}` (code 0x10).
In the code, line 374 tests `features & (TIMER & BATTERY)` where
`TIMER & BATTERY == 0`, so both feature sets fall through to the
wrong-features rejection; only `{}`, `{RAM}` and `{RAM,BATTERY}` are
accepted for MBC3.  This theorem evaluates the parser at the failing
inputs and at the accepted MBC3 feature sets. -/
theorem parseMBC_mbc3_timer_rejected :
    parseMBC (strBytes "mbc3+timer+battery") = MBC_WRONG_FEATURES ∧
    parseMBC (strBytes "mbc3+timer+ram+battery") = MBC_WRONG_FEATURES ∧
    parseMBC (strBytes "mbc3") = 0x11 ∧
    parseMBC (strBytes "mbc3+ram") = 0x12 ∧
    parseMBC (strBytes "mbc3+ram+battery") = 0x13 ∧
    parseMBC (strBytes "mbc3+battery") = MBC_WRONG_FEATURES := by
  set_option maxRecDepth 8000 in decide

/-- C2: the claim states that every canonical code value the parser can
produce round-trips through `mbcName`.  The numeric token `15` produces
the code 0x0F (`MBC3_TIMER_BATTERY`), whose display name is
`MBC3+TIMER+BATTERY`; feeding that name back yields
`MBC_WRONG_FEATURES` instead of 0x0F because of the dead timer branch at
line 374, so the round trip fails at this code (and likewise at 0x10). -/
theorem mbcName_roundtrip_fails_at_0x0F :
    parseMBC (strBytes "15") = 0x0F ∧
    mbcName 0x0F = some (strBytes "MBC3+TIMER+BATTERY") ∧
    parseMBC (strBytes "MBC3+TIMER+BATTERY") = MBC_WRONG_FEATURES ∧
    parseMBC (strBytes "16") = 0x10 ∧
    mbcName 0x10 = some (strBytes "MBC3+TIMER+RAM+BATTERY") ∧
    parseMBC (strBytes "MBC3+TIMER+RAM+BATTERY") = MBC_WRONG_FEATURES ∧
    MBC_WRONG_FEATURES ≠ 0x0F ∧ MBC_WRONG_FEATURES ≠ 0x10 := by
  set_option maxRecDepth 8000 in decide

/-- C8: an image shorter than 0x150 = 336 bytes is rejected as fatal
before any edit; the model returns the fatal outcome and no output
bytes, in both I/O modes and for every configuration. -/
theorem processFile_too_short (cfg : Config) (sk : Bool) (data : List Nat)
    (h : data.length < 0x150) :
    processFile cfg sk data = ProcOut.fatalTooShort := by
  have hlen : (data.take BANK_SIZE).length < 0x150 := by
    simp only [List.length_take, BANK_SIZE]
    omega
  simp only [processFile]
  rw [if_pos hlen]

/-- Witness for C8 at a concrete 335-byte image. -/
theorem processFile_too_short_witness :
    (List.replicate 335 0).length < 0x150 ∧
    processFile cfgNone true (List.replicate 335 0) = ProcOut.fatalTooShort := by
  have h : (List.replicate 335 (0 : Nat)).length < 0x150 := by
    rw [List.length_replicate]
    omega
  exact ⟨h, processFile_too_short cfgNone true (List.replicate 335 0) h⟩

/-- Closed form of the saturating error counter. -/
theorem nbErrorsAfter_eq (n : Nat) : nbErrorsAfter n = min n 255 := by
  induction n with
  | zero => rfl
  | succ n ih =>
    simp only [nbErrorsAfter, reportStep, ih]
    split <;> omega

/-- C10: the error counter saturates at 255 rather than wrapping mod
256, so after at least one reported error the counter (which is what
`processFilename` returns) is nonzero no matter how many errors were
reported. -/
theorem nbErrors_saturates (n : Nat) (h : 1 ≤ n) :
    nbErrorsAfter n = min n 255 ∧ nbErrorsAfter n ≠ 0 := by
  refine ⟨nbErrorsAfter_eq n, ?_⟩
  rw [nbErrorsAfter_eq n]
  omega

/-- Witness for C10 at 300 reported errors (more than 256: a wrapping
counter would read 44 after 300 errors, but this one reads 255). -/
theorem nbErrors_saturates_witness :
    1 ≤ 300 ∧ (nbErrorsAfter 300 = min 300 255 ∧ nbErrorsAfter 300 ≠ 0) :=
  ⟨by decide, nbErrors_saturates 300 (by decide)⟩

/-! ## Characterizing the bank topology stage -/

/-- Closed form of the ROMX copying loop: with the invariant fuel bound
it errors exactly when the remaining data needs more banks than the cap
allows, and otherwise returns all remaining data, its bank count and its
byte sum. -/
theorem copyROMXF_eq (fuel : Nat) :
    ∀ (input acc : List Nat) (nb g : Nat),
      1 ≤ nb → nb ≤ 0x10000 → 0x10000 - nb < fuel →
      copyROMXF fuel input nb acc g =
        if input.length > (0x10000 - nb) * BANK_SIZE then none
        else some (nb + (input.length + (BANK_SIZE - 1)) / BANK_SIZE,
                   acc ++ input, g + input.sum) := by
  induction fuel with
  | zero =>
    intro input acc nb g h1 h2 h3
    omega
  | succ fuel ih =>
    intro input acc nb g h1 h2 h3
    simp only [copyROMXF, BANK_SIZE] at *
    by_cases h0 : input.length = 0
    · have hnil : input = [] := List.eq_nil_of_length_eq_zero h0
      subst hnil
      norm_num
    · rw [if_pos (by omega : ¬ min input.length 16384 = 0)]
      by_cases hcap : nb = 0x10000
      · rw [if_pos hcap, if_pos (by omega : input.length > (0x10000 - nb) * 16384)]
      · rw [if_neg hcap]
        by_cases hfull : 16384 ≤ input.length
        · rw [if_pos (by omega : min input.length 16384 = 16384)]
          rw [ih (input.drop 16384) (acc ++ input.take 16384) (nb + 1)
            (g + (input.take 16384).sum) (by omega) (by omega) (by omega)]
          rw [List.length_drop]
          by_cases hc2 : input.length > (0x10000 - nb) * 16384
          · rw [if_pos (by omega : input.length - 16384 > (0x10000 - (nb + 1)) * 16384),
              if_pos hc2]
          · rw [if_neg (by omega : ¬ input.length - 16384 > (0x10000 - (nb + 1)) * 16384),
              if_neg hc2]
            have e1 : nb + 1 + (input.length - 16384 + (16384 - 1)) / 16384 =
                nb + (input.length + (16384 - 1)) / 16384 := by omega
            have e2 : acc ++ input.take 16384 ++ input.drop 16384 = acc ++ input := by
              rw [List.append_assoc, List.take_append_drop]
            have e3 : g + (input.take 16384).sum + (input.drop 16384).sum =
                g + input.sum := by
              rw [Nat.add_assoc, List.sum_take_add_sum_drop]
            rw [e1, e2, e3]
        · rw [if_neg (by omega : ¬ min input.length 16384 = 16384)]
          rw [if_neg (by omega : ¬ input.length > (0x10000 - nb) * 16384)]
          have e1 : nb + 1 = nb + (input.length + (16384 - 1)) / 16384 := by omega
          have e2 : input.take 16384 = input := List.take_of_length_le (by omega)
          rw [e1, e2]

/-- Closed form at the call site of main.c line 758. -/
theorem copyROMX_eq (input : List Nat) :
    copyROMX input 1 [] 0 =
      if input.length > 0xFFFF * BANK_SIZE then none
      else some (1 + (input.length + (BANK_SIZE - 1)) / BANK_SIZE, input, input.sum) := by
  have h := copyROMXF_eq 0x10001 input [] 1 0 (by omega) (by omega) (by omega)
  simpa using h

/-! ## Inversion of successful runs

Both inversion lemmas present the output through `finishFile` with
uniform arguments: on either path the bank count is
`ceil(length / BANK_SIZE)` and the ROMX length is
`length - BANK_SIZE`; only the pipe path buffers the ROMX bytes and
their running checksum.
-/

/-- Inversion for a successful seekable run (main.c lines 739-749): the
image held at least a header and the size was strictly below
`0x10000 * BANK_SIZE`. -/
theorem processFile_ok_elim_seek (cfg : Config) (data out : List Nat)
    (h : processFile cfg true data = ProcOut.ok out) :
    0x150 ≤ data.length ∧ data.length < 0x10000 * BANK_SIZE ∧
    out = finishFile cfg true data (applyEdits cfg (data.take BANK_SIZE))
            ((data.length + (BANK_SIZE - 1)) / BANK_SIZE) []
            (data.length - BANK_SIZE) 0 := by
  simp only [BANK_SIZE]
  simp only [processFile, BANK_SIZE, List.length_take, if_true] at h
  split at h
  · exact absurd h (by simp)
  · rename_i hshort
    split at h
    · exact absurd h (by simp)
    · rename_i hbig
      rw [show (if data.length ≥ 16384 then data.length - 16384 else 0) =
          data.length - 16384 by split <;> omega] at h
      injection h with h
      exact ⟨by omega, by omega, h.symm⟩

theorem processFile_ok_elim_pipe (cfg : Config) (data out : List Nat)
    (h : processFile cfg false data = ProcOut.ok out) :
    0x150 ≤ data.length ∧ data.length ≤ 0x10000 * BANK_SIZE ∧
    out = finishFile cfg false data (applyEdits cfg (data.take BANK_SIZE))
            ((data.length + (BANK_SIZE - 1)) / BANK_SIZE) (data.drop BANK_SIZE)
            (data.length - BANK_SIZE) ((data.drop BANK_SIZE).sum) := by
  simp only [BANK_SIZE]
  simp only [processFile, BANK_SIZE, List.length_take, if_false, Bool.false_eq_true] at h
  split at h
  · exact absurd h (by simp)
  · rename_i hshort
    split at h
    · rename_i hfull
      rw [copyROMX_eq] at h
      simp only [BANK_SIZE] at h
      split at h
      · exact absurd h (by simp)
      · rename_i nb romx g hcap
        split at hcap
        · exact absurd hcap (by simp)
        · rename_i hbound
          injection hcap with hcap
          simp only [Prod.mk.injEq] at hcap
          obtain ⟨e1, e2, e3⟩ := hcap
          subst e1
          subst e2
          subst e3
          rw [List.length_drop] at hbound h
          injection h with h
          refine ⟨by omega, by omega, ?_⟩
          rw [← h,
            show (1 : Nat) + (data.length - 16384 + (16384 - 1)) / 16384 =
              (data.length + (16384 - 1)) / 16384 from by omega]
    · rename_i hpart
      injection h with h
      refine ⟨by omega, by omega, ?_⟩
      rw [← h]
      have e1 : (data.length + (16384 - 1)) / 16384 = 1 := by omega
      have e2 : data.drop 16384 = [] := List.drop_eq_nil_of_le (by omega)
      have e3 : data.length - 16384 = 0 := by omega
      rw [e1, e2, e3]
      simp

/-- The seekable path rejects any image of at least `0x10000 * BANK_SIZE`
bytes (main.c line 740 tests `fileSize >= 0x10000 * BANK_SIZE`), writing
nothing back. -/
theorem processFile_seek_tooMany (cfg : Config) (data : List Nat)
    (h2 : 0x10000 * BANK_SIZE ≤ data.length) :
    processFile cfg true data = ProcOut.fatalTooManyBanks := by
  simp only [BANK_SIZE] at h2
  simp only [processFile, BANK_SIZE, List.length_take, eq_self_iff_true, if_true]
  rw [if_neg (by omega : ¬ min 16384 data.length < 0x150),
    if_pos (by omega : data.length ≥ 65536 * 16384)]

/-- The seekable path succeeds below the cap. -/
theorem processFile_seek_ok (cfg : Config) (data : List Nat)
    (h1 : 0x150 ≤ data.length) (h2 : data.length < 0x10000 * BANK_SIZE) :
    ∃ out, processFile cfg true data = ProcOut.ok out := by
  simp only [BANK_SIZE] at h2
  simp only [processFile, BANK_SIZE, List.length_take, eq_self_iff_true, if_true]
  rw [if_neg (by omega : ¬ min 16384 data.length < 0x150),
    if_neg (by omega : ¬ data.length ≥ 65536 * 16384)]
  exact ⟨_, rfl⟩

/-- The pipe path succeeds up to and including the cap. -/
theorem processFile_pipe_ok (cfg : Config) (data : List Nat)
    (h1 : 0x150 ≤ data.length) (h2 : data.length ≤ 0x10000 * BANK_SIZE) :
    ∃ out, processFile cfg false data = ProcOut.ok out := by
  simp only [BANK_SIZE] at h2
  simp only [processFile, BANK_SIZE, List.length_take, Bool.false_eq_true, if_false]
  rw [if_neg (by omega : ¬ min 16384 data.length < 0x150)]
  by_cases hfull : min 16384 data.length = 16384
  · rw [if_pos hfull, copyROMX_eq]
    simp only [BANK_SIZE, List.length_drop]
    rw [if_neg (by omega : ¬ data.length - 16384 > 65535 * 16384)]
    exact ⟨_, rfl⟩
  · rw [if_neg hfull]
    exact ⟨_, rfl⟩

/-- The pipe path rejects strictly above the cap, writing nothing. -/
theorem processFile_pipe_tooMany (cfg : Config) (data : List Nat)
    (h2 : 0x10000 * BANK_SIZE < data.length) :
    processFile cfg false data = ProcOut.fatalTooManyBanks := by
  simp only [BANK_SIZE] at h2
  simp only [processFile, BANK_SIZE, List.length_take, Bool.false_eq_true, if_false]
  rw [if_neg (by omega : ¬ min 16384 data.length < 0x150),
    if_pos (by omega : min 16384 data.length = 16384), copyROMX_eq]
  simp only [BANK_SIZE, List.length_drop]
  rw [if_pos (by omega : data.length - 16384 > 65535 * 16384)]

/-- C4: the claim states both paths accept exactly 65536 banks and
reject exactly above that.  The pipe path does accept an image of
exactly `0x10000 * BANK_SIZE` bytes and rejects one byte more; but the
seekable path tests `fileSize >= 0x10000 * BANK_SIZE` (line 740), so it
rejects the 65536-bank image as fatal (writing nothing) while accepting
one byte less, and its error message, which announces more than 65536
banks, is wrong at that boundary. -/
theorem processFile_bank_cap_boundary (cfg : Config) :
    processFile cfg true (List.replicate (0x10000 * BANK_SIZE) 0) =
      ProcOut.fatalTooManyBanks ∧
    (∃ out, processFile cfg false (List.replicate (0x10000 * BANK_SIZE) 0) =
      ProcOut.ok out) ∧
    processFile cfg false (List.replicate (0x10000 * BANK_SIZE + 1) 0) =
      ProcOut.fatalTooManyBanks ∧
    (∃ out, processFile cfg true (List.replicate (0x10000 * BANK_SIZE - 1) 0) =
      ProcOut.ok out) := by
  refine ⟨?_, ?_, ?_, ?_⟩
  · exact processFile_seek_tooMany cfg _ (by rw [List.length_replicate])
  · refine processFile_pipe_ok cfg _ ?_ ?_ <;>
      (rw [List.length_replicate]; try simp only [BANK_SIZE]; try omega)
  · refine processFile_pipe_tooMany cfg _ ?_
    rw [List.length_replicate]
    simp only [BANK_SIZE]
    omega
  · refine processFile_seek_ok cfg _ ?_ ?_ <;>
      (rw [List.length_replicate]; try simp only [BANK_SIZE]; try omega)

/-! ## List access helpers

All header positions are read through `List.getD _ _ 0`; these lemmas
lift the Mathlib `getElem?` lemmas to that form.
-/

theorem getD_set_ne (l : List Nat) (i j v : Nat) (h : i ≠ j) :
    (l.set i v).getD j 0 = l.getD j 0 := by
  simp only [List.getD_eq_getElem?_getD, List.getElem?_set_ne h]

theorem getD_set_self (l : List Nat) (i v : Nat) (h : i < l.length) :
    (l.set i v).getD i 0 = v := by
  simp only [List.getD_eq_getElem?_getD, List.getElem?_set_self h, Option.getD_some]

theorem getD_append_left (l₁ l₂ : List Nat) (j : Nat) (h : j < l₁.length) :
    (l₁ ++ l₂).getD j 0 = l₁.getD j 0 := by
  simp only [List.getD_eq_getElem?_getD, List.getElem?_append_left h]

theorem getD_append_right (l₁ l₂ : List Nat) (j : Nat) (h : l₁.length ≤ j) :
    (l₁ ++ l₂).getD j 0 = l₂.getD (j - l₁.length) 0 := by
  simp only [List.getD_eq_getElem?_getD, List.getElem?_append_right h]

theorem getD_take (l : List Nat) (n j : Nat) (h : j < n) :
    (l.take n).getD j 0 = l.getD j 0 := by
  simp only [List.getD_eq_getElem?_getD, List.getElem?_take, if_pos h]

theorem getD_drop (l : List Nat) (n j : Nat) :
    (l.drop n).getD j 0 = l.getD (n + j) 0 := by
  simp only [List.getD_eq_getElem?_getD, List.getElem?_drop]

theorem setRange_length (l vs : List Nat) (i : Nat) (h : i + vs.length ≤ l.length) :
    (setRange l i vs).length = l.length := by
  simp only [setRange, List.length_append, List.length_take, List.length_drop]
  omega

theorem setRange_getD_lt (l vs : List Nat) (i j : Nat)
    (h : i + vs.length ≤ l.length) (hj : j < i) :
    (setRange l i vs).getD j 0 = l.getD j 0 := by
  unfold setRange
  rw [getD_append_left _ _ _
      (by simp only [List.length_append, List.length_take]; omega),
    getD_append_left _ _ _ (by simp only [List.length_take]; omega),
    getD_take _ _ _ hj]

theorem setRange_getD_ge (l vs : List Nat) (i j : Nat)
    (h : i + vs.length ≤ l.length) (hj : i + vs.length ≤ j) :
    (setRange l i vs).getD j 0 = l.getD j 0 := by
  unfold setRange
  rw [getD_append_right _ _ _
    (by simp only [List.length_append, List.length_take]; omega)]
  rw [getD_drop]
  congr 1
  simp only [List.length_append, List.length_take]
  omega

/-- Frame lemma for `setRange`: positions outside the written range are
untouched. -/
theorem setRange_getD_out (l vs : List Nat) (i j : Nat)
    (h : i + vs.length ≤ l.length) (hj : j < i ∨ i + vs.length ≤ j) :
    (setRange l i vs).getD j 0 = l.getD j 0 := by
  rcases hj with hj | hj
  · exact setRange_getD_lt l vs i j h hj
  · exact setRange_getD_ge l vs i j h hj

theorem ninLogo_length : ninLogo.length = 48 := rfl

/-! ## The set of header offsets an edit run may touch -/

/-- Membership of offset `i` in the byte range written for an optional
string field placed at `base`. -/
def optRange (o : Option (List Nat)) (base i : Nat) : Prop :=
  match o with
  | some t => base ≤ i ∧ i < base + t.length
  | none => False

instance : (o : Option (List Nat)) → (base i : Nat) → Decidable (optRange o base i)
  | some _, _, _ => inferInstanceAs (Decidable (_ ∧ _))
  | none, _, _ => inferInstanceAs (Decidable False)

/-- Offsets whose output byte is allowed to differ from the input:
the fixed offset ranges of the configured header edits (main.c lines
683-721), the ROM size byte when padding is requested (line 810), and
the checksum bytes when their fix or trash is requested (lines 816-846).
Every other offset must pass through unchanged. -/
def touched (cfg : Config) (i : Nat) : Prop :=
  (cfg.fixSpec &&& (FIX_LOGO ||| TRASH_LOGO) ≠ 0 ∧ 0x104 ≤ i ∧ i < 0x134) ∨
  optRange cfg.title 0x134 i ∨
  optRange cfg.gameID 0x13f i ∨
  (cfg.model ≠ 0 ∧ i = 0x143) ∨
  optRange cfg.newLicensee 0x144 i ∨
  (cfg.sgb = true ∧ i = 0x146) ∨
  (cfg.cartridgeType < MBC_NONE ∧ i = 0x147) ∨
  (cfg.padValue ≠ UNSPECIFIED ∧ i = 0x148) ∨
  (cfg.ramSize ≠ UNSPECIFIED ∧ i = 0x149) ∨
  (cfg.japanese = false ∧ i = 0x14a) ∨
  (cfg.oldLicensee ≠ UNSPECIFIED ∧ i = 0x14b) ∨
  (cfg.romVersion ≠ UNSPECIFIED ∧ i = 0x14c) ∨
  (cfg.fixSpec &&& (FIX_HEADER_SUM ||| TRASH_HEADER_SUM) ≠ 0 ∧ i = 0x14d) ∨
  (cfg.fixSpec &&& (FIX_GLOBAL_SUM ||| TRASH_GLOBAL_SUM) ≠ 0 ∧ (i = 0x14e ∨ i = 0x14f))

instance (cfg : Config) (i : Nat) : Decidable (touched cfg i) := by
  unfold touched
  infer_instance

/-! ## Length preservation and frame lemmas for the header edits -/

theorem editLogo_length (cfg : Config) (r : List Nat) (hr : 0x150 ≤ r.length) :
    (editLogo cfg r).length = r.length := by
  unfold editLogo
  split
  · split <;>
      exact setRange_length _ _ _
        (by simp only [List.length_map, ninLogo_length]; omega)
  · rfl

theorem editTitle_length (cfg : Config) (r : List Nat) (hwf : cfg.WF)
    (hr : 0x150 ≤ r.length) : (editTitle cfg r).length = r.length := by
  unfold editTitle
  cases ht : cfg.title with
  | none => rfl
  | some t =>
    have hl : t.length ≤ 16 := by
      have := hwf.1
      rw [ht] at this
      exact this
    exact setRange_length _ _ _ (by omega)

theorem editGameID_length (cfg : Config) (r : List Nat) (hwf : cfg.WF)
    (hr : 0x150 ≤ r.length) : (editGameID cfg r).length = r.length := by
  unfold editGameID
  cases ht : cfg.gameID with
  | none => rfl
  | some g =>
    have hl : g.length ≤ 4 := by
      have := hwf.2.1
      rw [ht] at this
      exact this
    exact setRange_length _ _ _ (by omega)

theorem editNewLicensee_length (cfg : Config) (r : List Nat) (hwf : cfg.WF)
    (hr : 0x150 ≤ r.length) : (editNewLicensee cfg r).length = r.length := by
  unfold editNewLicensee
  cases ht : cfg.newLicensee with
  | none => rfl
  | some k =>
    have hl : k.length ≤ 2 := by
      have := hwf.2.2
      rw [ht] at this
      exact this
    exact setRange_length _ _ _ (by omega)

theorem editModel_length (cfg : Config) (r : List Nat) :
    (editModel cfg r).length = r.length := by
  unfold editModel
  split
  · exact List.length_set _ _ _
  · rfl

theorem editSGB_length (cfg : Config) (r : List Nat) :
    (editSGB cfg r).length = r.length := by
  unfold editSGB
  split
  · exact List.length_set _ _ _
  · rfl

theorem editCartType_length (cfg : Config) (r : List Nat) :
    (editCartType cfg r).length = r.length := by
  unfold editCartType
  split
  · exact List.length_set _ _ _
  · rfl

theorem editRamSize_length (cfg : Config) (r : List Nat) :
    (editRamSize cfg r).length = r.length := by
  unfold editRamSize
  split
  · exact List.length_set _ _ _
  · rfl

theorem editRegion_length (cfg : Config) (r : List Nat) :
    (editRegion cfg r).length = r.length := by
  unfold editRegion
  split
  · exact List.length_set _ _ _
  · rfl

theorem editOldLicensee_length (cfg : Config) (r : List Nat) :
    (editOldLicensee cfg r).length = r.length := by
  unfold editOldLicensee
  split
  · exact List.length_set _ _ _
  · rfl

theorem editRomVersion_length (cfg : Config) (r : List Nat) :
    (editRomVersion cfg r).length = r.length := by
  unfold editRomVersion
  split
  · exact List.length_set _ _ _
  · rfl

/-- All header edits preserve the bank 0 length (every write stays
inside the 0x150-byte header). -/
theorem applyEdits_length (cfg : Config) (r : List Nat) (hwf : cfg.WF)
    (hr : 0x150 ≤ r.length) : (applyEdits cfg r).length = r.length := by
  unfold applyEdits
  have h1 := editLogo_length cfg r hr
  have h2 := editTitle_length cfg _ hwf (h1 ▸ hr)
  have h3 := editGameID_length cfg _ hwf ((h2.trans h1) ▸ hr)
  have h4 := editModel_length cfg (editGameID cfg (editTitle cfg (editLogo cfg r)))
  have h5 := editNewLicensee_length cfg _ hwf
    ((h4.trans ((h3.trans (h2.trans h1)))) ▸ hr)
  have h6 := editSGB_length cfg (editNewLicensee cfg (editModel cfg (editGameID cfg
    (editTitle cfg (editLogo cfg r)))))
  have h7 := editCartType_length cfg (editSGB cfg (editNewLicensee cfg (editModel cfg
    (editGameID cfg (editTitle cfg (editLogo cfg r))))))
  have h8 := editRamSize_length cfg (editCartType cfg (editSGB cfg (editNewLicensee cfg
    (editModel cfg (editGameID cfg (editTitle cfg (editLogo cfg r)))))))
  have h9 := editRegion_length cfg (editRamSize cfg (editCartType cfg (editSGB cfg
    (editNewLicensee cfg (editModel cfg (editGameID cfg (editTitle cfg
    (editLogo cfg r))))))))
  have h10 := editOldLicensee_length cfg (editRegion cfg (editRamSize cfg
    (editCartType cfg (editSGB cfg (editNewLicensee cfg (editModel cfg (editGameID cfg
    (editTitle cfg (editLogo cfg r)))))))))
  have h11 := editRomVersion_length cfg (editOldLicensee cfg (editRegion cfg
    (editRamSize cfg (editCartType cfg (editSGB cfg (editNewLicensee cfg (editModel cfg
    (editGameID cfg (editTitle cfg (editLogo cfg r))))))))))
  omega

theorem editLogo_getD (cfg : Config) (r : List Nat) (i : Nat)
    (h : ¬(cfg.fixSpec &&& (FIX_LOGO ||| TRASH_LOGO) ≠ 0 ∧ 0x104 ≤ i ∧ i < 0x134))
    (hr : 0x150 ≤ r.length) :
    (editLogo cfg r).getD i 0 = r.getD i 0 := by
  unfold editLogo
  split
  · rename_i hc
    have hout : i < 0x104 ∨ 0x134 ≤ i := by
      by_contra hx
      exact h ⟨hc, by omega⟩
    split
    · exact setRange_getD_out _ _ _ _ (by rw [ninLogo_length]; omega)
        (by rw [ninLogo_length]; omega)
    · exact setRange_getD_out _ _ _ _
        (by rw [List.length_map, ninLogo_length]; omega)
        (by rw [List.length_map, ninLogo_length]; omega)
  · rfl

theorem editTitle_getD (cfg : Config) (r : List Nat) (i : Nat) (hwf : cfg.WF)
    (h : ¬ optRange cfg.title 0x134 i) (hr : 0x150 ≤ r.length) :
    (editTitle cfg r).getD i 0 = r.getD i 0 := by
  unfold editTitle
  cases ht : cfg.title with
  | none => rfl
  | some t =>
    have hl : t.length ≤ 16 := by
      have := hwf.1
      rw [ht] at this
      exact this
    rw [ht] at h
    have hrange : ¬(0x134 ≤ i ∧ i < 0x134 + t.length) := h
    exact setRange_getD_out _ _ _ _ (by omega) (by omega)

theorem editGameID_getD (cfg : Config) (r : List Nat) (i : Nat) (hwf : cfg.WF)
    (h : ¬ optRange cfg.gameID 0x13f i) (hr : 0x150 ≤ r.length) :
    (editGameID cfg r).getD i 0 = r.getD i 0 := by
  unfold editGameID
  cases ht : cfg.gameID with
  | none => rfl
  | some g =>
    have hl : g.length ≤ 4 := by
      have := hwf.2.1
      rw [ht] at this
      exact this
    rw [ht] at h
    have hrange : ¬(0x13f ≤ i ∧ i < 0x13f + g.length) := h
    exact setRange_getD_out _ _ _ _ (by omega) (by omega)

theorem editNewLicensee_getD (cfg : Config) (r : List Nat) (i : Nat) (hwf : cfg.WF)
    (h : ¬ optRange cfg.newLicensee 0x144 i) (hr : 0x150 ≤ r.length) :
    (editNewLicensee cfg r).getD i 0 = r.getD i 0 := by
  unfold editNewLicensee
  cases ht : cfg.newLicensee with
  | none => rfl
  | some k =>
    have hl : k.length ≤ 2 := by
      have := hwf.2.2
      rw [ht] at this
      exact this
    rw [ht] at h
    have hrange : ¬(0x144 ≤ i ∧ i < 0x144 + k.length) := h
    exact setRange_getD_out _ _ _ _ (by omega) (by omega)

theorem editModel_getD (cfg : Config) (r : List Nat) (i : Nat)
    (h : ¬(cfg.model ≠ 0 ∧ i = 0x143)) :
    (editModel cfg r).getD i 0 = r.getD i 0 := by
  unfold editModel
  split
  · rename_i hc
    exact getD_set_ne _ _ _ _ (fun he => h ⟨hc, he.symm⟩)
  · rfl

theorem editSGB_getD (cfg : Config) (r : List Nat) (i : Nat)
    (h : ¬(cfg.sgb = true ∧ i = 0x146)) :
    (editSGB cfg r).getD i 0 = r.getD i 0 := by
  unfold editSGB
  split
  · rename_i hc
    exact getD_set_ne _ _ _ _ (fun he => h ⟨hc, he.symm⟩)
  · rfl

theorem editCartType_getD (cfg : Config) (r : List Nat) (i : Nat)
    (h : ¬(cfg.cartridgeType < MBC_NONE ∧ i = 0x147)) :
    (editCartType cfg r).getD i 0 = r.getD i 0 := by
  unfold editCartType
  split
  · rename_i hc
    exact getD_set_ne _ _ _ _ (fun he => h ⟨hc, he.symm⟩)
  · rfl

theorem editRamSize_getD (cfg : Config) (r : List Nat) (i : Nat)
    (h : ¬(cfg.ramSize ≠ UNSPECIFIED ∧ i = 0x149)) :
    (editRamSize cfg r).getD i 0 = r.getD i 0 := by
  unfold editRamSize
  split
  · rename_i hc
    exact getD_set_ne _ _ _ _ (fun he => h ⟨hc, he.symm⟩)
  · rfl

theorem editRegion_getD (cfg : Config) (r : List Nat) (i : Nat)
    (h : ¬(cfg.japanese = false ∧ i = 0x14a)) :
    (editRegion cfg r).getD i 0 = r.getD i 0 := by
  unfold editRegion
  split
  · rename_i hc
    exact getD_set_ne _ _ _ _ (fun he => h ⟨hc, he.symm⟩)
  · rfl

theorem editOldLicensee_getD (cfg : Config) (r : List Nat) (i : Nat)
    (h : ¬(cfg.oldLicensee ≠ UNSPECIFIED ∧ i = 0x14b)) :
    (editOldLicensee cfg r).getD i 0 = r.getD i 0 := by
  unfold editOldLicensee
  split
  · rename_i hc
    exact getD_set_ne _ _ _ _ (fun he => h ⟨hc, he.symm⟩)
  · rfl

theorem editRomVersion_getD (cfg : Config) (r : List Nat) (i : Nat)
    (h : ¬(cfg.romVersion ≠ UNSPECIFIED ∧ i = 0x14c)) :
    (editRomVersion cfg r).getD i 0 = r.getD i 0 := by
  unfold editRomVersion
  split
  · rename_i hc
    exact getD_set_ne _ _ _ _ (fun he => h ⟨hc, he.symm⟩)
  · rfl

/-- Frame lemma for the whole edit run: an offset outside the touched
set reads the same byte after all header edits. -/
theorem applyEdits_getD (cfg : Config) (r : List Nat) (i : Nat) (hwf : cfg.WF)
    (hr : 0x150 ≤ r.length) (hnt : ¬ touched cfg i) :
    (applyEdits cfg r).getD i 0 = r.getD i 0 := by
  simp only [touched, not_or] at hnt
  obtain ⟨n1, n2, n3, n4, n5, n6, n7, n8, n9, n10, n11, n12, n13, n14⟩ := hnt
  have l1 := editLogo_length cfg r hr
  have l2 := editTitle_length cfg _ hwf (l1 ▸ hr)
  have hr2 : 0x150 ≤ (editTitle cfg (editLogo cfg r)).length := by omega
  have l3 := editGameID_length cfg _ hwf hr2
  have hr3 : 0x150 ≤ (editGameID cfg (editTitle cfg (editLogo cfg r))).length := by
    omega
  have l4 := editModel_length cfg (editGameID cfg (editTitle cfg (editLogo cfg r)))
  have hr4 : 0x150 ≤ (editModel cfg (editGameID cfg (editTitle cfg
      (editLogo cfg r)))).length := by omega
  unfold applyEdits
  rw [editRomVersion_getD _ _ _ n12, editOldLicensee_getD _ _ _ n11,
    editRegion_getD _ _ _ n10, editRamSize_getD _ _ _ n9,
    editCartType_getD _ _ _ n7, editSGB_getD _ _ _ n6,
    editNewLicensee_getD _ _ _ hwf n5 hr4, editModel_getD _ _ _ n4,
    editGameID_getD _ _ _ hwf n3 hr2, editTitle_getD _ _ _ hwf n2 (l1 ▸ hr),
    editLogo_getD _ _ _ n1 hr]

/-! ## Power-of-two arithmetic for the padding plan

The C code rounds the bank count with `x & (x - 1)` as the power-of-two
test and `1 << (32 - clz(x))` as the rounding step (main.c lines
804-810); these lemmas characterize both.
-/

theorem land_pred_odd (n : Nat) (h1 : n % 2 = 1) : n &&& (n - 1) = n - 1 := by
  apply Nat.eq_of_testBit_eq
  intro i
  rw [Nat.testBit_land]
  cases i with
  | zero =>
    rw [Nat.testBit_zero, Nat.testBit_zero]
    have h2 : (n - 1) % 2 = 0 := by omega
    simp [h1, h2]
  | succ i =>
    rw [Nat.testBit_succ, Nat.testBit_succ]
    have e : n / 2 = (n - 1) / 2 := by omega
    rw [e, Bool.and_self]

theorem land_two_mul_pred (m : Nat) (h : 1 ≤ m) :
    (2 * m) &&& (2 * m - 1) = 2 * (m &&& (m - 1)) := by
  apply Nat.eq_of_testBit_eq
  intro i
  rw [Nat.testBit_land]
  cases i with
  | zero =>
    rw [Nat.testBit_zero, Nat.testBit_zero, Nat.testBit_zero]
    have h1 : 2 * m % 2 = 0 := by omega
    have h2 : 2 * (m &&& (m - 1)) % 2 = 0 := by omega
    simp [h1, h2]
  | succ i =>
    rw [Nat.testBit_succ, Nat.testBit_succ, Nat.testBit_succ]
    have e1 : 2 * m / 2 = m := by omega
    have e2 : (2 * m - 1) / 2 = m - 1 := by omega
    have e3 : 2 * (m &&& (m - 1)) / 2 = m &&& (m - 1) := by omega
    rw [e1, e2, e3, Nat.testBit_land]

/-- `x & (x - 1) == 0` really does imply `x` is a power of two (of
positive exponent when `x ≥ 2`). -/
theorem pow2_of_land_eq_zero :
    ∀ n, 2 ≤ n → n &&& (n - 1) = 0 → ∃ k, n = 2 ^ (k + 1) := by
  intro n
  induction n using Nat.strong_induction_on with
  | _ n ih =>
    intro h2 h
    by_cases hodd : n % 2 = 1
    · rw [land_pred_odd n hodd] at h
      omega
    · have hm : n = 2 * (n / 2) := by omega
      have h1 : 1 ≤ n / 2 := by omega
      rw [hm, land_two_mul_pred _ h1] at h
      have h0 : n / 2 &&& (n / 2 - 1) = 0 := by omega
      by_cases hone : n / 2 = 1
      · exact ⟨0, by omega⟩
      · obtain ⟨k, hk⟩ := ih (n / 2) (by omega) (by omega) h0
        refine ⟨k + 1, ?_⟩
        rw [hm, hk, pow_succ]
        ring

/-- Conversely, a power of two passes the `x & (x - 1) == 0` test. -/
theorem land_pred_pow2 (k : Nat) : 2 ^ k &&& (2 ^ k - 1) = 0 := by
  apply Nat.eq_of_testBit_eq
  intro i
  rw [Nat.testBit_land, Nat.testBit_two_pow_sub_one, Nat.zero_testBit,
    Nat.testBit_two_pow]
  by_cases hik : k = i
  · subst hik
    simp
  · simp [hik]

theorem ctzF_pow : ∀ fuel k, k < fuel → ctzF fuel (2 ^ k) = k := by
  intro fuel
  induction fuel with
  | zero =>
    intro k hk
    omega
  | succ fuel ih =>
    intro k hk
    cases k with
    | zero => simp [ctzF]
    | succ k =>
      rw [ctzF]
      have hne : (2 : Nat) ^ (k + 1) ≠ 0 := by positivity
      have hmod : (2 : Nat) ^ (k + 1) % 2 = 0 := by
        rw [pow_succ]
        omega
      rw [if_neg (by omega)]
      have e : (2 : Nat) ^ (k + 1) / 2 = 2 ^ k := by
        rw [pow_succ]
        omega
      rw [e, ih k (by omega)]

theorem ctz_pow (k : Nat) (h : k < 32) : ctz (2 ^ k) = k :=
  ctzF_pow 32 k h

theorem clog_eq_size_of_not_pow2 (n : Nat) (h2 : 2 ≤ n) (h : ∀ k, n ≠ 2 ^ k) :
    Nat.clog 2 n = n.size := by
  have hub : n < 2 ^ n.size := Nat.lt_size_self n
  have hle : Nat.clog 2 n ≤ n.size :=
    (Nat.le_pow_iff_clog_le (by norm_num)).mp (le_of_lt hub)
  have hsz1 : 1 ≤ n.size := Nat.lt_size.mpr (by omega)
  have hlb : 2 ^ (n.size - 1) ≤ n := by
    by_contra hx
    push_neg at hx
    have := Nat.size_le.mpr hx
    omega
  have hstrict : 2 ^ (n.size - 1) < n := lt_of_le_of_ne hlb (fun he => h _ he.symm)
  have hgt : ¬ Nat.clog 2 n ≤ n.size - 1 := by
    intro hc
    have := (Nat.le_pow_iff_clog_le (show (1 : Nat) < 2 by norm_num)).mpr hc
    omega
  omega

theorem two_pow_div_two (m : Nat) (h : 1 ≤ m) : (2 : Nat) ^ m / 2 = 2 ^ (m - 1) := by
  cases m with
  | zero => omega
  | succ m =>
    rw [pow_succ, Nat.succ_sub_one]
    omega

theorem padStage_spec (cfg : Config) (rom0 : List Nat) (nb0 rx g0 : Nat)
    (hpad : cfg.padValue ≠ UNSPECIFIED)
    (h1 : 1 ≤ nb0) (h2 : nb0 ≤ 0x10000)
    (hr : 0x150 ≤ rom0.length) (hrb : rom0.length ≤ BANK_SIZE) :
    ∃ k, (padStage cfg rom0 nb0 rx g0).2.1 = 2 ^ (k + 1) ∧
      k + 1 = Nat.clog 2 (max 2 nb0) ∧
      nb0 ≤ 2 ^ (k + 1) ∧
      k < 31 ∧
      (padStage cfg rom0 nb0 rx g0).1.length =
        (if nb0 = 1 then BANK_SIZE else rom0.length) ∧
      (padStage cfg rom0 nb0 rx g0).1.getD 0x148 0 = k ∧
      (padStage cfg rom0 nb0 rx g0).2.2 =
        g0 + cfg.padValue * ((2 ^ (k + 1) - 1) * BANK_SIZE - rx) := by
  unfold padStage
  rw [if_pos hpad]
  by_cases hone : nb0 = 1
  · subst hone
    rw [if_pos rfl]
    simp only
    have hext : (if rom0.length ≠ BANK_SIZE
        then rom0 ++ List.replicate (BANK_SIZE - rom0.length) cfg.padValue
        else rom0).length = BANK_SIZE := by
      split
      · simp only [List.length_append, List.length_replicate, BANK_SIZE] at *
        omega
      · omega
    have hland : ¬ ((2 : Nat) &&& (2 - 1) ≠ 0) := by decide
    rw [if_neg hland]
    refine ⟨0, by norm_num, ?_, by norm_num, by norm_num, ?_, ?_, by norm_num⟩
    · exact (Nat.clog_pow 2 1 (by norm_num)).symm
    · rw [List.length_set, hext]
      simp
    · rw [getD_set_self _ _ _ (by rw [hext]; simp [BANK_SIZE]),
        show ctz (2 / 2) = 0 from rfl]
  · rw [if_neg hone]
    simp only
    by_cases hland : nb0 &&& (nb0 - 1) = 0
    · rw [if_neg (by omega : ¬ (nb0 &&& (nb0 - 1) ≠ 0))]
      obtain ⟨k, hk⟩ := pow2_of_land_eq_zero nb0 (by omega) hland
      have hk16 : k + 1 ≤ 16 := by
        rw [hk] at h2
        exact (Nat.pow_le_pow_iff_right (by norm_num)).mp
          (h2.trans_eq (by norm_num))
      refine ⟨k, hk, ?_, le_of_eq hk, by omega, by rw [List.length_set, if_neg hone],
        ?_, by rw [hk]⟩
      · rw [max_eq_right (by omega), hk, Nat.clog_pow _ _ (by norm_num)]
      · rw [getD_set_self _ _ _ (by omega), hk, two_pow_div_two _ (by omega),
          Nat.add_sub_cancel, ctz_pow k (by omega)]
    · rw [if_pos hland]
      have hnp : ∀ j, nb0 ≠ 2 ^ j := by
        intro j he
        exact hland (by rw [he]; exact land_pred_pow2 j)
      have hlt : nb0 < 0x10000 := by
        rcases Nat.lt_or_ge nb0 0x10000 with hx | hx
        · exact hx
        · exact absurd (by omega : nb0 = 0x10000) (by
            intro he
            exact hnp 16 (by rw [he]; norm_num))
      have hs32 : nb0.size ≤ 16 := Nat.size_le.mpr (by norm_num at hlt ⊢; omega)
      have hs2 : 2 ≤ nb0.size := by
        have := Nat.lt_size.mpr (show 2 ^ 1 ≤ nb0 by omega)
        omega
      have hshift : 1 <<< (32 - clz32 nb0) = 2 ^ nb0.size := by
        rw [Nat.one_shiftLeft]
        congr 1
        unfold clz32
        omega
      rw [hshift]
      refine ⟨nb0.size - 1, by congr 1; omega, ?_, ?_, by omega, ?_, ?_, ?_⟩
      · rw [max_eq_right (by omega), clog_eq_size_of_not_pow2 nb0 (by omega) hnp]
        omega
      · have := Nat.lt_size_self nb0
        have e : nb0.size - 1 + 1 = nb0.size := by omega
        rw [e]
        omega
      · rw [List.length_set, if_neg hone]
      · rw [getD_set_self _ _ _ (by omega), two_pow_div_two _ (by omega),
          ctz_pow _ (by omega)]
      · have e : nb0.size - 1 + 1 = nb0.size := by omega
        rw [e]

theorem padStage_unspec (cfg : Config) (rom0 : List Nat) (nb0 rx g0 : Nat)
    (h : cfg.padValue = UNSPECIFIED) :
    padStage cfg rom0 nb0 rx g0 = (rom0, nb0, g0) := by
  unfold padStage
  rw [if_neg (by simp [h])]

/-- Frame lemma for the padding stage: offsets inside the original bank
0 other than the ROM size byte 0x148 are unchanged. -/
theorem padStage_getD (cfg : Config) (rom0 : List Nat) (nb0 rx g0 i : Nat)
    (hne : i ≠ 0x148) (hi : i < rom0.length) :
    (padStage cfg rom0 nb0 rx g0).1.getD i 0 = rom0.getD i 0 := by
  unfold padStage
  split
  · simp only
    rw [getD_set_ne _ _ _ _ (fun he => hne he.symm)]
    split
    · split
      · exact getD_append_left _ _ _ hi
      · rfl
    · rfl
  · rfl

/-- The padding stage never shrinks bank 0. -/
theorem padStage_length_ge (cfg : Config) (rom0 : List Nat) (nb0 rx g0 : Nat) :
    rom0.length ≤ (padStage cfg rom0 nb0 rx g0).1.length := by
  unfold padStage
  split
  · simp only [List.length_set]
    split
    · split
      · simp
      · exact Nat.le_refl _
    · exact Nat.le_refl _
  · exact Nat.le_refl _

theorem fixHeaderSum_length (cfg : Config) (r : List Nat) :
    (fixHeaderSum cfg r).length = r.length := by
  unfold fixHeaderSum
  split
  · exact List.length_set _ _ _
  · rfl

theorem fixHeaderSum_getD (cfg : Config) (r : List Nat) (i : Nat)
    (hne : i ≠ 0x14d) :
    (fixHeaderSum cfg r).getD i 0 = r.getD i 0 := by
  unfold fixHeaderSum
  split
  · exact getD_set_ne _ _ _ _ (fun he => hne he.symm)
  · rfl

theorem fixGlobalSum_length (cfg : Config) (sk : Bool) (data r : List Nat)
    (g : Nat) : (fixGlobalSum cfg sk data r g).length = r.length := by
  unfold fixGlobalSum
  split
  · simp only [List.length_set]
  · rfl

theorem fixGlobalSum_getD (cfg : Config) (sk : Bool) (data r : List Nat)
    (g i : Nat) (h1 : i ≠ 0x14e) (h2 : i ≠ 0x14f) :
    (fixGlobalSum cfg sk data r g).getD i 0 = r.getD i 0 := by
  unfold fixGlobalSum
  split
  · rw [getD_set_ne _ _ _ _ (fun he => h2 he.symm),
      getD_set_ne _ _ _ _ (fun he => h1 he.symm),
      getD_set_ne _ _ _ _ (fun he => h2 he.symm),
      getD_set_ne _ _ _ _ (fun he => h1 he.symm)]
  · rfl

theorem finishFile_eq (cfg : Config) (sk : Bool) (data rom0 romx : List Nat)
    (nb0 rx g0 : Nat) :
    finishFile cfg sk data rom0 nb0 romx rx g0 =
      writeBack cfg sk data
        (fixGlobalSum cfg sk data (fixHeaderSum cfg (padStage cfg rom0 nb0 rx g0).1)
          (padStage cfg rom0 nb0 rx g0).2.2)
        romx (padStage cfg rom0 nb0 rx g0).2.1 rx := rfl

/-- Output shape of `finishFile` when padding is requested: the output
is a whole power-of-two number of banks of at least 2, the ROM size
byte records the exponent, and that exponent matches the base-2 ceiling
logarithm of the bank count clamped to at least two banks. -/
theorem finishFile_pad_out (cfg : Config) (sk : Bool) (data rom0 romx : List Nat)
    (NB RX g0 : Nat)
    (hpad : cfg.padValue ≠ UNSPECIFIED)
    (h1 : 1 ≤ NB) (h2 : NB ≤ 0x10000)
    (hr : 0x150 ≤ rom0.length) (hrb : rom0.length ≤ BANK_SIZE)
    (hnb2 : 2 ≤ NB → rom0.length = BANK_SIZE)
    (hRX : RX ≤ (NB - 1) * BANK_SIZE)
    (hsk : sk = true → data.length - BANK_SIZE = RX)
    (hromx : romx.length = if sk then 0 else RX) :
    ∃ k, (finishFile cfg sk data rom0 NB romx RX g0).length =
        2 ^ (k + 1) * BANK_SIZE ∧
      (finishFile cfg sk data rom0 NB romx RX g0).getD 0x148 0 = k ∧
      k + 1 = Nat.clog 2 (max 2 NB) := by
  obtain ⟨k, hnb, hclog, hnbge, hk31, hplen, hpgetD, hpsum⟩ :=
    padStage_spec cfg rom0 NB RX g0 hpad h1 h2 hr hrb
  have hwl : (padStage cfg rom0 NB RX g0).1.length = BANK_SIZE := by
    rw [hplen]
    split
    · rfl
    · rename_i hne
      exact hnb2 (by omega)
  have hR3len : (fixGlobalSum cfg sk data
      (fixHeaderSum cfg (padStage cfg rom0 NB RX g0).1)
      (padStage cfg rom0 NB RX g0).2.2).length = BANK_SIZE := by
    rw [fixGlobalSum_length, fixHeaderSum_length, hwl]
  have hone_le : 1 ≤ 2 ^ (k + 1) := Nat.one_le_two_pow
  have hRXle : RX ≤ (2 ^ (k + 1) - 1) * BANK_SIZE := by
    have e : (NB - 1) * BANK_SIZE ≤ (2 ^ (k + 1) - 1) * BANK_SIZE :=
      Nat.mul_le_mul_right _ (by omega)
    omega
  refine ⟨k, ?_, ?_, hclog⟩
  · rw [finishFile_eq]
    simp only [writeBack]
    rw [if_pos hpad, hnb]
    cases sk with
    | true =>
      have hrx := hsk rfl
      rw [if_pos rfl, if_neg (by exact hpad)]
      simp only [List.length_append, List.length_take, List.length_drop,
        List.length_replicate, hR3len]
      simp only [BANK_SIZE] at *
      omega
    | false =>
      rw [if_neg (by simp)]
      simp only [List.length_append, List.length_replicate, hR3len, hromx]
      simp only [if_false, Bool.false_eq_true] at *
      simp only [BANK_SIZE] at *
      omega
  · rw [finishFile_eq]
    simp only [writeBack]
    rw [if_pos hpad, hnb]
    cases sk with
    | true =>
      rw [if_pos rfl, if_neg (by exact hpad)]
      rw [getD_append_left _ _ _ (by
        simp only [List.length_append, List.length_take, hR3len, BANK_SIZE]
        omega)]
      rw [getD_append_left _ _ _ (by
        simp only [List.length_take, hR3len, BANK_SIZE]
        omega)]
      rw [getD_take _ _ _ (by rw [hR3len]; norm_num [BANK_SIZE])]
      rw [fixGlobalSum_getD _ _ _ _ _ _ (by omega) (by omega),
        fixHeaderSum_getD _ _ _ (by omega), hpgetD]
    | false =>
      rw [if_neg (by simp)]
      rw [getD_append_left _ _ _ (by
        simp only [List.length_append, hR3len, BANK_SIZE]
        omega)]
      rw [getD_append_left _ _ _ (by rw [hR3len]; norm_num [BANK_SIZE])]
      rw [fixGlobalSum_getD _ _ _ _ _ _ (by omega) (by omega),
        fixHeaderSum_getD _ _ _ (by omega), hpgetD]

/-- C7: when padding is requested, the resulting image is a whole
power-of-two number of 16 KiB banks, at least two; the ROM size byte at
0x148 is the base-2 logarithm of half the bank count; and the target
bank count is the least power of two (with a floor of two banks)
covering the input bank count `ceil(length / BANK_SIZE)`.  In
particular a 3-bank input pads to 4 banks with code 1, and an input
smaller than one bank pads to 2 banks with code 0. -/
theorem processFile_pad_plan (cfg : Config) (sk : Bool) (data out : List Nat)
    (hwf : cfg.WF) (hpad : cfg.padValue ≠ UNSPECIFIED)
    (hok : processFile cfg sk data = ProcOut.ok out) :
    out.length = 2 ^ (out.getD 0x148 0 + 1) * BANK_SIZE ∧
    out.getD 0x148 0 + 1 =
      Nat.clog 2 (max 2 ((data.length + (BANK_SIZE - 1)) / BANK_SIZE)) := by
  cases sk with
  | true =>
    obtain ⟨hlen, hcap, hout⟩ := processFile_ok_elim_seek cfg data out hok
    have htk : (data.take BANK_SIZE).length = min BANK_SIZE data.length :=
      List.length_take _ _
    have htk2 : 0x150 ≤ (data.take BANK_SIZE).length := by
      rw [htk]
      simp only [BANK_SIZE]
      omega
    have hr : 0x150 ≤ (applyEdits cfg (data.take BANK_SIZE)).length := by
      rw [applyEdits_length cfg _ hwf htk2]
      exact htk2
    have hrb : (applyEdits cfg (data.take BANK_SIZE)).length ≤ BANK_SIZE := by
      rw [applyEdits_length cfg _ hwf htk2, htk]
      omega
    have h1 : 1 ≤ (data.length + (BANK_SIZE - 1)) / BANK_SIZE := by
      simp only [BANK_SIZE] at *
      omega
    have h2 : (data.length + (BANK_SIZE - 1)) / BANK_SIZE ≤ 0x10000 := by
      simp only [BANK_SIZE] at *
      omega
    have hnb2 : 2 ≤ (data.length + (BANK_SIZE - 1)) / BANK_SIZE →
        (applyEdits cfg (data.take BANK_SIZE)).length = BANK_SIZE := by
      intro hge
      rw [applyEdits_length cfg _ hwf htk2, htk]
      simp only [BANK_SIZE] at *
      omega
    have hRX : data.length - BANK_SIZE ≤
        ((data.length + (BANK_SIZE - 1)) / BANK_SIZE - 1) * BANK_SIZE := by
      simp only [BANK_SIZE]
      omega
    obtain ⟨k, e1, e2, e3⟩ := finishFile_pad_out cfg true data
      (applyEdits cfg (data.take BANK_SIZE)) []
      ((data.length + (BANK_SIZE - 1)) / BANK_SIZE) (data.length - BANK_SIZE) 0
      hpad h1 h2 hr hrb hnb2 hRX (fun _ => rfl) (by simp)
    rw [hout, e1, e2]
    exact ⟨rfl, e3⟩
  | false =>
    obtain ⟨hlen, hcap, hout⟩ := processFile_ok_elim_pipe cfg data out hok
    have htk : (data.take BANK_SIZE).length = min BANK_SIZE data.length :=
      List.length_take _ _
    have htk2 : 0x150 ≤ (data.take BANK_SIZE).length := by
      rw [htk]
      simp only [BANK_SIZE]
      omega
    have hr : 0x150 ≤ (applyEdits cfg (data.take BANK_SIZE)).length := by
      rw [applyEdits_length cfg _ hwf htk2]
      exact htk2
    have hrb : (applyEdits cfg (data.take BANK_SIZE)).length ≤ BANK_SIZE := by
      rw [applyEdits_length cfg _ hwf htk2, htk]
      omega
    have h1 : 1 ≤ (data.length + (BANK_SIZE - 1)) / BANK_SIZE := by
      simp only [BANK_SIZE] at *
      omega
    have h2 : (data.length + (BANK_SIZE - 1)) / BANK_SIZE ≤ 0x10000 := by
      simp only [BANK_SIZE] at *
      omega
    have hnb2 : 2 ≤ (data.length + (BANK_SIZE - 1)) / BANK_SIZE →
        (applyEdits cfg (data.take BANK_SIZE)).length = BANK_SIZE := by
      intro hge
      rw [applyEdits_length cfg _ hwf htk2, htk]
      simp only [BANK_SIZE] at *
      omega
    have hRX : data.length - BANK_SIZE ≤
        ((data.length + (BANK_SIZE - 1)) / BANK_SIZE - 1) * BANK_SIZE := by
      simp only [BANK_SIZE]
      omega
    obtain ⟨k, e1, e2, e3⟩ := finishFile_pad_out cfg false data
      (applyEdits cfg (data.take BANK_SIZE)) (data.drop BANK_SIZE)
      ((data.length + (BANK_SIZE - 1)) / BANK_SIZE) (data.length - BANK_SIZE)
      ((data.drop BANK_SIZE).sum)
      hpad h1 h2 hr hrb hnb2 hRX (by simp) (by simp [List.length_drop])
    rw [hout, e1, e2]
    exact ⟨rfl, e3⟩

/-- Padding configuration used by the C7 witness: pad byte 0xAB, no
other edits. -/
def cfgPadW : Config :=
  ⟨0, none, none, 0, none, false, 0x100, 0x100, true, 0x100, 0x100, 0xAB⟩

/-- A minimal 336-byte input image for witnesses. -/
def dataW336 : List Nat := List.replicate 0x150 7

set_option maxRecDepth 40000 in
/-- Witness for C7 at a concrete sub-bank image: it pads to 2 banks
with ROM size code 0. -/
theorem processFile_pad_plan_witness :
    cfgPadW.WF ∧ cfgPadW.padValue ≠ UNSPECIFIED ∧
    processFile cfgPadW false dataW336 =
      ProcOut.ok (okPayload (processFile cfgPadW false dataW336)) ∧
    ((okPayload (processFile cfgPadW false dataW336)).length =
        2 ^ ((okPayload (processFile cfgPadW false dataW336)).getD 0x148 0 + 1) *
          BANK_SIZE ∧
      (okPayload (processFile cfgPadW false dataW336)).getD 0x148 0 + 1 =
        Nat.clog 2 (max 2 ((dataW336.length + (BANK_SIZE - 1)) / BANK_SIZE))) :=
  ⟨by decide, by decide, rfl,
    processFile_pad_plan cfgPadW false dataW336 _ (by decide) (by decide) rfl⟩

/-- The header checksum only reads offsets 0x134 through 0x14C. -/
theorem headerChecksumOf_congr (a b : List Nat)
    (h : ∀ i, 0x134 ≤ i → i < 0x14d → a.getD i 0 = b.getD i 0) :
    headerChecksumOf a = headerChecksumOf b := by
  unfold headerChecksumOf
  have hgen : ∀ (idx : List Nat) (s : Nat), (∀ i ∈ idx, 0x134 ≤ i ∧ i < 0x14d) →
      idx.foldl (fun s i => (s + 256 - (a.getD i 0 + 1)) % 256) s =
      idx.foldl (fun s i => (s + 256 - (b.getD i 0 + 1)) % 256) s := by
    intro idx
    induction idx with
    | nil =>
      intro s _
      rfl
    | cons x xs ih =>
      intro s hmem
      simp only [List.foldl_cons]
      obtain ⟨hx1, hx2⟩ := hmem x (by simp)
      rw [h x hx1 hx2]
      exact ih _ (fun i hi => hmem i (by simp [hi]))
  refine hgen _ _ ?_
  intro i hi
  rw [List.mem_range'] at hi
  omega

/-- The header checksum is a byte. -/
theorem headerChecksumOf_lt (r : List Nat) : headerChecksumOf r < 256 := by
  unfold headerChecksumOf
  have hgen : ∀ (idx : List Nat) (s : Nat), s < 256 →
      idx.foldl (fun s i => (s + 256 - (r.getD i 0 + 1)) % 256) s < 256 := by
    intro idx
    induction idx with
    | nil =>
      intro s hs
      exact hs
    | cons x xs ih =>
      intro s hs
      simp only [List.foldl_cons]
      exact ih _ (Nat.mod_lt _ (by omega))
  exact hgen _ 0 (by omega)

/-- Any byte of the header prefix of the written output equals the
corresponding byte of the final bank 0 buffer. -/
theorem writeBack_getD_header (cfg : Config) (sk : Bool)
    (data rom0 romx : List Nat) (nb rx i : Nat)
    (hi : i < 0x150) (hlen : 0x150 ≤ rom0.length) :
    (writeBack cfg sk data rom0 romx nb rx).getD i 0 = rom0.getD i 0 := by
  simp only [writeBack]
  split
  · have hwl : 0x150 ≤ (if cfg.padValue = UNSPECIFIED then 0x150 else rom0.length) := by
      split
      · exact Nat.le_refl _
      · exact hlen
    rw [getD_append_left _ _ _
        (by simp only [List.length_append, List.length_take]; omega),
      getD_append_left _ _ _ (by simp only [List.length_take]; omega),
      getD_take _ _ _ (by omega)]
  · rw [getD_append_left _ _ _ (by simp only [List.length_append]; omega),
      getD_append_left _ _ _ (by omega)]

/-- Header checksum behaviour of the pipeline tail, for any bank
topology. -/
theorem finishFile_header_checksum (cfg : Config) (sk : Bool)
    (data rom0 romx : List Nat) (NB RX g0 : Nat)
    (hh : cfg.fixSpec &&& (FIX_HEADER_SUM ||| TRASH_HEADER_SUM) ≠ 0)
    (hr : 0x150 ≤ rom0.length) :
    (finishFile cfg sk data rom0 NB romx RX g0).getD 0x14d 0 =
      (if cfg.fixSpec &&& TRASH_HEADER_SUM ≠ 0
       then 255 - headerChecksumOf (finishFile cfg sk data rom0 NB romx RX g0)
       else headerChecksumOf (finishFile cfg sk data rom0 NB romx RX g0)) := by
  rw [finishFile_eq]
  have hr1 : 0x150 ≤ (padStage cfg rom0 NB RX g0).1.length :=
    hr.trans (padStage_length_ge cfg rom0 NB RX g0)
  have hfh : fixHeaderSum cfg (padStage cfg rom0 NB RX g0).1 =
      ((padStage cfg rom0 NB RX g0).1).set 0x14d
        (if cfg.fixSpec &&& TRASH_HEADER_SUM ≠ 0
         then 255 - headerChecksumOf (padStage cfg rom0 NB RX g0).1
         else headerChecksumOf (padStage cfg rom0 NB RX g0).1) := by
    unfold fixHeaderSum
    rw [if_pos hh]
  have hR3len : 0x150 ≤ (fixGlobalSum cfg sk data
      (fixHeaderSum cfg (padStage cfg rom0 NB RX g0).1)
      (padStage cfg rom0 NB RX g0).2.2).length := by
    rw [fixGlobalSum_length, fixHeaderSum_length]
    exact hr1
  have hstored : (writeBack cfg sk data
      (fixGlobalSum cfg sk data (fixHeaderSum cfg (padStage cfg rom0 NB RX g0).1)
        (padStage cfg rom0 NB RX g0).2.2)
      romx (padStage cfg rom0 NB RX g0).2.1 RX).getD 0x14d 0 =
      (if cfg.fixSpec &&& TRASH_HEADER_SUM ≠ 0
       then 255 - headerChecksumOf (padStage cfg rom0 NB RX g0).1
       else headerChecksumOf (padStage cfg rom0 NB RX g0).1) := by
    rw [writeBack_getD_header _ _ _ _ _ _ _ _ (by omega) hR3len,
      fixGlobalSum_getD _ _ _ _ _ _ (by omega) (by omega), hfh,
      getD_set_self _ _ _ (by omega)]
  have hsum : headerChecksumOf (writeBack cfg sk data
      (fixGlobalSum cfg sk data (fixHeaderSum cfg (padStage cfg rom0 NB RX g0).1)
        (padStage cfg rom0 NB RX g0).2.2)
      romx (padStage cfg rom0 NB RX g0).2.1 RX) =
      headerChecksumOf (padStage cfg rom0 NB RX g0).1 := by
    refine headerChecksumOf_congr _ _ ?_
    intro i hi1 hi2
    rw [writeBack_getD_header _ _ _ _ _ _ _ _ (by omega) hR3len,
      fixGlobalSum_getD _ _ _ _ _ _ (by omega) (by omega), hfh,
      getD_set_ne _ _ _ _ (by omega)]
  rw [hstored, hsum]

/-- C6: whenever a header-checksum fix or trash is requested, the byte
stored at 0x14D equals the checksum computed over the output bytes
0x134-0x14C by starting at zero and subtracting (byte + 1) with 8-bit
wrap-around; a trash request stores `255 - sum`, the exact uint8
bitwise complement of the fixed value (the checksum is below 256), so
the fixed and trashed stored values are bitwise complements of each
other.  This holds on both I/O paths. -/
theorem processFile_header_checksum (cfg : Config) (sk : Bool)
    (data out : List Nat) (hwf : cfg.WF)
    (hh : cfg.fixSpec &&& (FIX_HEADER_SUM ||| TRASH_HEADER_SUM) ≠ 0)
    (hok : processFile cfg sk data = ProcOut.ok out) :
    out.getD 0x14d 0 =
      (if cfg.fixSpec &&& TRASH_HEADER_SUM ≠ 0
       then 255 - headerChecksumOf out
       else headerChecksumOf out) ∧
    headerChecksumOf out < 256 := by
  refine ⟨?_, headerChecksumOf_lt out⟩
  cases sk with
  | true =>
    obtain ⟨hlen, hcap, hout⟩ := processFile_ok_elim_seek cfg data out hok
    have htk2 : 0x150 ≤ (data.take BANK_SIZE).length := by
      rw [List.length_take]
      simp only [BANK_SIZE]
      omega
    have hr : 0x150 ≤ (applyEdits cfg (data.take BANK_SIZE)).length := by
      rw [applyEdits_length cfg _ hwf htk2]
      exact htk2
    rw [hout]
    exact finishFile_header_checksum cfg true data _ [] _ _ 0 hh hr
  | false =>
    obtain ⟨hlen, hcap, hout⟩ := processFile_ok_elim_pipe cfg data out hok
    have htk2 : 0x150 ≤ (data.take BANK_SIZE).length := by
      rw [List.length_take]
      simp only [BANK_SIZE]
      omega
    have hr : 0x150 ≤ (applyEdits cfg (data.take BANK_SIZE)).length := by
      rw [applyEdits_length cfg _ hwf htk2]
      exact htk2
    rw [hout]
    exact finishFile_header_checksum cfg false data _ _ _ _ _ hh hr

/-- Configuration used by the C6 witness: fix the header checksum
only. -/
def cfgHW : Config :=
  ⟨FIX_HEADER_SUM, none, none, 0, none, false, 0x100, 0x100, true, 0x100, 0x100, 0x100⟩

set_option maxRecDepth 40000 in
/-- Witness for C6 on a concrete 336-byte image through the pipe
path. -/
theorem processFile_header_checksum_witness :
    cfgHW.WF ∧ cfgHW.fixSpec &&& (FIX_HEADER_SUM ||| TRASH_HEADER_SUM) ≠ 0 ∧
    processFile cfgHW false dataW336 =
      ProcOut.ok (okPayload (processFile cfgHW false dataW336)) ∧
    ((okPayload (processFile cfgHW false dataW336)).getD 0x14d 0 =
      (if cfgHW.fixSpec &&& TRASH_HEADER_SUM ≠ 0
       then 255 - headerChecksumOf (okPayload (processFile cfgHW false dataW336))
       else headerChecksumOf (okPayload (processFile cfgHW false dataW336))) ∧
     headerChecksumOf (okPayload (processFile cfgHW false dataW336)) < 256) :=
  ⟨by decide, by decide, rfl,
    processFile_header_checksum cfgHW false dataW336 _ (by decide) (by decide) rfl⟩

theorem fixHeaderSum_getD_frame (cfg : Config) (r : List Nat) (i : Nat)
    (h : ¬(cfg.fixSpec &&& (FIX_HEADER_SUM ||| TRASH_HEADER_SUM) ≠ 0 ∧ i = 0x14d)) :
    (fixHeaderSum cfg r).getD i 0 = r.getD i 0 := by
  unfold fixHeaderSum
  split
  · rename_i hc
    exact getD_set_ne _ _ _ _ (fun he => h ⟨hc, he.symm⟩)
  · rfl

theorem fixGlobalSum_getD_frame (cfg : Config) (sk : Bool) (data r : List Nat)
    (g i : Nat)
    (h : ¬(cfg.fixSpec &&& (FIX_GLOBAL_SUM ||| TRASH_GLOBAL_SUM) ≠ 0 ∧
      (i = 0x14e ∨ i = 0x14f))) :
    (fixGlobalSum cfg sk data r g).getD i 0 = r.getD i 0 := by
  unfold fixGlobalSum
  split
  · rename_i hc
    have hni : ¬(i = 0x14e ∨ i = 0x14f) := fun hx => h ⟨hc, hx⟩
    rw [getD_set_ne _ _ _ _ (by omega), getD_set_ne _ _ _ _ (by omega),
      getD_set_ne _ _ _ _ (by omega), getD_set_ne _ _ _ _ (by omega)]
  · rfl

theorem padStage_getD_frame (cfg : Config) (rom0 : List Nat) (nb0 rx g0 i : Nat)
    (h : ¬(cfg.padValue ≠ UNSPECIFIED ∧ i = 0x148)) (hi : i < rom0.length) :
    (padStage cfg rom0 nb0 rx g0).1.getD i 0 = rom0.getD i 0 := by
  unfold padStage
  split
  · rename_i hc
    have hne : i ≠ 0x148 := fun he => h ⟨hc, he⟩
    simp only
    rw [getD_set_ne _ _ _ _ (fun he => hne he.symm)]
    split
    · split
      · exact getD_append_left _ _ _ hi
      · rfl
    · rfl
  · rfl

theorem padStage_length_le (cfg : Config) (rom0 : List Nat) (nb0 rx g0 : Nat)
    (hrb : rom0.length ≤ BANK_SIZE) :
    (padStage cfg rom0 nb0 rx g0).1.length ≤ BANK_SIZE := by
  unfold padStage
  split
  · simp only [List.length_set]
    split
    · split
      · simp only [List.length_append, List.length_replicate]
        omega
      · exact hrb
    · exact hrb
  · exact hrb

/-- Frame through the three tail stages (padding, header checksum,
global checksum) of the pipeline. -/
theorem finishTail_getD_frame (cfg : Config) (sk : Bool) (data rom0 : List Nat)
    (NB RX g0 i : Nat)
    (hn8 : ¬(cfg.padValue ≠ UNSPECIFIED ∧ i = 0x148))
    (hn13 : ¬(cfg.fixSpec &&& (FIX_HEADER_SUM ||| TRASH_HEADER_SUM) ≠ 0 ∧ i = 0x14d))
    (hn14 : ¬(cfg.fixSpec &&& (FIX_GLOBAL_SUM ||| TRASH_GLOBAL_SUM) ≠ 0 ∧
      (i = 0x14e ∨ i = 0x14f)))
    (hi : i < rom0.length) :
    (fixGlobalSum cfg sk data (fixHeaderSum cfg (padStage cfg rom0 NB RX g0).1)
      (padStage cfg rom0 NB RX g0).2.2).getD i 0 = rom0.getD i 0 := by
  rw [fixGlobalSum_getD_frame _ _ _ _ _ _ hn14, fixHeaderSum_getD_frame _ _ _ hn13,
    padStage_getD_frame _ _ _ _ _ _ hn8 hi]

/-- Positional reads of the seekable write-back: offsets below the
rewritten prefix come from the fixed bank 0 buffer, the rest of the file
is left as-is (main.c lines 872-882). -/
theorem writeBack_getD_seek (cfg : Config) (data R3 romx : List Nat)
    (nbB RX i : Nat) (hR3 : 0x150 ≤ R3.length) (hi : i < data.length) :
    (writeBack cfg true data R3 romx nbB RX).getD i 0 =
      if i < (if cfg.padValue = UNSPECIFIED then 0x150 else R3.length)
      then R3.getD i 0 else data.getD i 0 := by
  have hwb : writeBack cfg true data R3 romx nbB RX =
      R3.take (if cfg.padValue = UNSPECIFIED then 0x150 else R3.length) ++
      data.drop (if cfg.padValue = UNSPECIFIED then 0x150 else R3.length) ++
      (if cfg.padValue ≠ UNSPECIFIED
       then List.replicate ((nbB - 1) * BANK_SIZE - RX) cfg.padValue
       else []) := by
    unfold writeBack
    rw [if_pos rfl]
  rw [hwb]
  by_cases hp : cfg.padValue = UNSPECIFIED
  · rw [if_pos hp,
      if_neg (show ¬ cfg.padValue ≠ UNSPECIFIED from by simp [hp]),
      List.append_nil]
    by_cases hlt : i < 0x150
    · rw [if_pos hlt, getD_append_left _ _ _ (by
        rw [List.length_take]
        omega), getD_take _ _ _ hlt]
    · rw [if_neg hlt,
        getD_append_right _ _ _ (by rw [List.length_take]; omega),
        List.length_take, getD_drop]
      congr 1
      omega
  · rw [if_neg hp, List.take_length]
    by_cases hlt : i < R3.length
    · rw [if_pos hlt,
        getD_append_left _ _ _ (by rw [List.length_append]; omega),
        getD_append_left _ _ _ hlt]
    · rw [if_neg hlt,
        getD_append_left _ _ _ (by
          rw [List.length_append, List.length_drop]
          omega),
        getD_append_right _ _ _ (by omega),
        getD_drop]
      congr 1
      omega

/-- Positional reads of the streamed write-back below the padding:
bank 0 comes from the fixed buffer, the rest from the buffered ROMX
banks (main.c lines 884-908). -/
theorem writeBack_getD_pipe (cfg : Config) (data R3 romx : List Nat)
    (nbB RX i : Nat) (hi : i < R3.length + romx.length) :
    (writeBack cfg false data R3 romx nbB RX).getD i 0 =
      if i < R3.length then R3.getD i 0 else romx.getD (i - R3.length) 0 := by
  have hwb : writeBack cfg false data R3 romx nbB RX =
      R3 ++ romx ++
      (if cfg.padValue ≠ UNSPECIFIED
       then List.replicate ((nbB - 1) * BANK_SIZE - RX) cfg.padValue
       else []) := by
    unfold writeBack
    rw [if_neg (by simp)]
  rw [hwb]
  by_cases hlt : i < R3.length
  · rw [if_pos hlt,
      getD_append_left _ _ _ (by rw [List.length_append]; omega),
      getD_append_left _ _ _ hlt]
  · rw [if_neg hlt,
      getD_append_left _ _ _ (by rw [List.length_append]; omega),
      getD_append_right _ _ _ (by omega)]

/-- Every touched offset lies inside the 0x150-byte header, so ROMX
bytes are never touched. -/
theorem touched_lt (cfg : Config) (i : Nat) (hwf : cfg.WF)
    (h : touched cfg i) : i < 0x150 := by
  obtain ⟨w1, w2, w3⟩ := hwf
  simp only [touched, optRange] at h
  rcases h with h | h | h | h | h | h | h | h | h | h | h | h | h | h
  · omega
  · cases ht : cfg.title with
    | none => rw [ht] at h; exact absurd h not_false
    | some t =>
      rw [ht] at h w1
      simp only [optLenLE] at w1
      omega
  · cases ht : cfg.gameID with
    | none => rw [ht] at h; exact absurd h not_false
    | some t =>
      rw [ht] at h w2
      simp only [optLenLE] at w2
      omega
  · omega
  · cases ht : cfg.newLicensee with
    | none => rw [ht] at h; exact absurd h not_false
    | some t =>
      rw [ht] at h w3
      simp only [optLenLE] at w3
      omega
  · omega
  · omega
  · omega
  · omega
  · omega
  · omega
  · omega
  · omega
  · omega

theorem finishR3_length (cfg : Config) (sk : Bool) (data rom0 : List Nat)
    (nb0 rx g0 : Nat) :
    (fixGlobalSum cfg sk data (fixHeaderSum cfg (padStage cfg rom0 nb0 rx g0).1)
      (padStage cfg rom0 nb0 rx g0).2.2).length =
      (padStage cfg rom0 nb0 rx g0).1.length := by
  rw [fixGlobalSum_length, fixHeaderSum_length]

theorem padStage_length_of_ne_one (cfg : Config) (rom0 : List Nat)
    (nb0 rx g0 : Nat) (h1 : 1 ≤ nb0) (h2 : nb0 ≤ 0x10000)
    (hr : 0x150 ≤ rom0.length) (hrb : rom0.length ≤ BANK_SIZE)
    (hone : nb0 ≠ 1) :
    (padStage cfg rom0 nb0 rx g0).1.length = rom0.length := by
  by_cases hp : cfg.padValue = UNSPECIFIED
  · rw [padStage_unspec _ _ _ _ _ hp]
  · obtain ⟨k, _, _, _, _, hplen, _, _⟩ :=
      padStage_spec cfg rom0 nb0 rx g0 hp h1 h2 hr hrb
    rw [hplen, if_neg hone]

theorem padStage_lt_rom0 (cfg : Config) (rom0 : List Nat) (nb0 rx g0 i : Nat)
    (h1 : 1 ≤ nb0) (h2 : nb0 ≤ 0x10000)
    (hr : 0x150 ≤ rom0.length) (hrb : rom0.length ≤ BANK_SIZE)
    (hlt : i < (padStage cfg rom0 nb0 rx g0).1.length)
    (hcase : nb0 = 1 → i < rom0.length) :
    i < rom0.length := by
  by_cases hp : cfg.padValue = UNSPECIFIED
  · rw [padStage_unspec _ _ _ _ _ hp] at hlt
    exact hlt
  · by_cases hone : nb0 = 1
    · exact hcase hone
    · obtain ⟨k, _, _, _, _, hplen, _, _⟩ :=
        padStage_spec cfg rom0 nb0 rx g0 hp h1 h2 hr hrb
      rw [hplen, if_neg hone] at hlt
      exact hlt

/-- C9: frame property of `processFile` — on both I/O paths, every byte
of the image that the configuration does not touch passes through
unchanged: any header offset outside the `touched` set (the offsets of
the fields actually configured, the checksum bytes when a checksum
fix/trash is requested and the ROM-size byte when padding is
requested), and every ROMX byte (any offset at or beyond 0x150,
including all of banks 1..N-1). -/
theorem processFile_frame (cfg : Config) (sk : Bool) (data out : List Nat)
    (hwf : cfg.WF) (hok : processFile cfg sk data = ProcOut.ok out)
    (i : Nat) (hi : i < data.length) (hro : 0x150 ≤ i ∨ ¬ touched cfg i) :
    out.getD i 0 = data.getD i 0 := by
  have hnt : ¬ touched cfg i := by
    rcases hro with hge | hnt
    · exact fun ht => absurd (touched_lt cfg i hwf ht) (by omega)
    · exact hnt
  have hcopy := hnt
  simp only [touched, not_or] at hcopy
  obtain ⟨n1, n2, n3, n4, n5, n6, n7, n8, n9, n10, n11, n12, n13, n14⟩ := hcopy
  cases sk with
  | true =>
    obtain ⟨hlen, hcap, hout⟩ := processFile_ok_elim_seek cfg data out hok
    have h150 : 0x150 ≤ (data.take BANK_SIZE).length := by
      rw [List.length_take]
      simp only [BANK_SIZE]
      omega
    have hel : (applyEdits cfg (data.take BANK_SIZE)).length =
        (data.take BANK_SIZE).length := applyEdits_length cfg _ hwf h150
    have htl : (data.take BANK_SIZE).length = min BANK_SIZE data.length :=
      List.length_take _ _
    have hge := padStage_length_ge cfg (applyEdits cfg (data.take BANK_SIZE))
      ((data.length + (BANK_SIZE - 1)) / BANK_SIZE) (data.length - BANK_SIZE) 0
    have hR3len := finishR3_length cfg true data
      (applyEdits cfg (data.take BANK_SIZE))
      ((data.length + (BANK_SIZE - 1)) / BANK_SIZE) (data.length - BANK_SIZE) 0
    rw [hout, finishFile_eq,
      writeBack_getD_seek _ _ _ _ _ _ _ (by
        rw [hR3len]
        simp only [BANK_SIZE] at *
        omega) hi]
    by_cases hp : cfg.padValue = UNSPECIFIED
    · rw [if_pos hp]
      split
      · rename_i hlt
        have hi1 : i < (applyEdits cfg (data.take BANK_SIZE)).length := by
          simp only [BANK_SIZE] at *
          omega
        rw [finishTail_getD_frame cfg true data _ _ _ _ i n8 n13 n14 hi1,
          applyEdits_getD cfg _ i hwf h150 hnt,
          getD_take _ _ _ (by simp only [BANK_SIZE] at *; omega)]
      · rfl
    · rw [if_neg hp]
      split
      · rename_i hlt
        rw [hR3len] at hlt
        have hi1 : i < (applyEdits cfg (data.take BANK_SIZE)).length := by
          refine padStage_lt_rom0 cfg _ _ _ _ i ?_ ?_ ?_ ?_ hlt ?_
          · simp only [BANK_SIZE] at *
            omega
          · simp only [BANK_SIZE] at *
            omega
          · simp only [BANK_SIZE] at *
            omega
          · simp only [BANK_SIZE] at *
            omega
          · intro hone
            simp only [BANK_SIZE] at *
            omega
        rw [finishTail_getD_frame cfg true data _ _ _ _ i n8 n13 n14 hi1,
          applyEdits_getD cfg _ i hwf h150 hnt,
          getD_take _ _ _ (by simp only [BANK_SIZE] at *; omega)]
      · rfl
  | false =>
    obtain ⟨hlen, hcap, hout⟩ := processFile_ok_elim_pipe cfg data out hok
    have h150 : 0x150 ≤ (data.take BANK_SIZE).length := by
      rw [List.length_take]
      simp only [BANK_SIZE]
      omega
    have hel : (applyEdits cfg (data.take BANK_SIZE)).length =
        (data.take BANK_SIZE).length := applyEdits_length cfg _ hwf h150
    have htl : (data.take BANK_SIZE).length = min BANK_SIZE data.length :=
      List.length_take _ _
    have hge := padStage_length_ge cfg (applyEdits cfg (data.take BANK_SIZE))
      ((data.length + (BANK_SIZE - 1)) / BANK_SIZE) (data.length - BANK_SIZE)
      ((data.drop BANK_SIZE).sum)
    have hR3len := finishR3_length cfg false data
      (applyEdits cfg (data.take BANK_SIZE))
      ((data.length + (BANK_SIZE - 1)) / BANK_SIZE) (data.length - BANK_SIZE)
      ((data.drop BANK_SIZE).sum)
    rw [hout, finishFile_eq,
      writeBack_getD_pipe _ _ _ _ _ _ _ (by
        rw [hR3len, List.length_drop]
        simp only [BANK_SIZE] at *
        omega)]
    split
    · rename_i hlt
      rw [hR3len] at hlt
      have hi1 : i < (applyEdits cfg (data.take BANK_SIZE)).length := by
        refine padStage_lt_rom0 cfg _ _ _ _ i ?_ ?_ ?_ ?_ hlt ?_
        · simp only [BANK_SIZE] at *
          omega
        · simp only [BANK_SIZE] at *
          omega
        · simp only [BANK_SIZE] at *
          omega
        · simp only [BANK_SIZE] at *
          omega
        · intro hone
          simp only [BANK_SIZE] at *
          omega
      rw [finishTail_getD_frame cfg false data _ _ _ _ i n8 n13 n14 hi1,
        applyEdits_getD cfg _ i hwf h150 hnt,
        getD_take _ _ _ (by simp only [BANK_SIZE] at *; omega)]
    · rename_i hlt
      rw [hR3len] at hlt
      have hbig : BANK_SIZE < data.length := by
        simp only [BANK_SIZE] at *
        omega
      have hone : (data.length + (BANK_SIZE - 1)) / BANK_SIZE ≠ 1 := by
        simp only [BANK_SIZE] at *
        omega
      have hplen1 := padStage_length_of_ne_one cfg
        (applyEdits cfg (data.take BANK_SIZE))
        ((data.length + (BANK_SIZE - 1)) / BANK_SIZE)
        (data.length - BANK_SIZE) ((data.drop BANK_SIZE).sum)
        (by simp only [BANK_SIZE] at *; omega)
        (by simp only [BANK_SIZE] at *; omega)
        (by simp only [BANK_SIZE] at *; omega)
        (by simp only [BANK_SIZE] at *; omega)
        hone
      rw [hR3len, getD_drop]
      congr 1
      simp only [BANK_SIZE] at *
      omega

set_option maxRecDepth 40000 in
/-- C9 witness: a seekable 336-byte image processed under the
all-absent configuration keeps the byte at offset 0x120 unchanged. -/
theorem processFile_frame_witness :
    Config.WF cfgNone ∧
    processFile cfgNone true dataW336 =
      ProcOut.ok (okPayload (processFile cfgNone true dataW336)) ∧
    (0x120 : Nat) < dataW336.length ∧
    ((0x150 : Nat) ≤ 0x120 ∨ ¬ touched cfgNone 0x120) ∧
    (okPayload (processFile cfgNone true dataW336)).getD 0x120 0 =
      dataW336.getD 0x120 0 :=
  ⟨by decide, rfl, by decide, Or.inr (by decide),
    processFile_frame cfgNone true dataW336
      (okPayload (processFile cfgNone true dataW336)) (by decide) rfl 0x120
      (by decide) (Or.inr (by decide))⟩

theorem sum_set_add (l : List Nat) (i v : Nat) (hi : i < l.length) :
    (l.set i v).sum + l.getD i 0 = l.sum + v := by
  induction l generalizing i with
  | nil => simp at hi
  | cons a t ih =>
    cases i with
    | zero =>
      simp only [List.set, List.sum_cons, List.getD_cons_zero]
      omega
    | succ j =>
      have hj : j < t.length := by
        simp only [List.length_cons] at hi
        omega
      have := ih j hj
      simp only [List.set, List.sum_cons, List.getD_cons_succ]
      omega

theorem ext_of_getD (l₁ l₂ : List Nat) (hl : l₁.length = l₂.length)
    (h : ∀ i, i < l₁.length → l₁.getD i 0 = l₂.getD i 0) : l₁ = l₂ := by
  refine List.ext_getElem hl ?_
  intro i h1 h2
  have hh := h i h1
  rw [List.getD_eq_getElem?_getD, List.getD_eq_getElem?_getD,
    List.getElem?_eq_getElem h1, List.getElem?_eq_getElem h2] at hh
  exact hh

theorem drop_split (l : List Nat) (m n : Nat) (h1 : m ≤ n) (h2 : m ≤ l.length) :
    l.drop m = (l.take n).drop m ++ l.drop n := by
  conv_lhs => rw [← List.take_append_drop n l]
  rw [List.drop_append_of_le_length (by rw [List.length_take]; omega)]

/-- The successful global-checksum store, made explicit: the two target
bytes are zeroed, the 16-bit value is computed and its two halves are
stored big endian. -/
theorem fixGlobalSum_eq_store (cfg : Config) (sk : Bool) (data r : List Nat)
    (g : Nat) (hg : cfg.fixSpec &&& (FIX_GLOBAL_SUM ||| TRASH_GLOBAL_SUM) ≠ 0) :
    ∃ gg, gg = (if cfg.fixSpec &&& TRASH_GLOBAL_SUM ≠ 0
        then 0xFFFF - (g + ((r.set 0x14e 0).set 0x14f 0).sum +
          (if sk then (data.drop BANK_SIZE).sum else 0)) % 0x10000
        else (g + ((r.set 0x14e 0).set 0x14f 0).sum +
          (if sk then (data.drop BANK_SIZE).sum else 0)) % 0x10000) ∧
      fixGlobalSum cfg sk data r g =
        (((r.set 0x14e 0).set 0x14f 0).set 0x14e (gg / 0x100)).set 0x14f
          (gg % 0x100) := by
  refine ⟨_, rfl, ?_⟩
  unfold fixGlobalSum
  rw [if_pos hg]

theorem writeBack_eq_seek (cfg : Config) (data R3 romx : List Nat)
    (nbB RX : Nat) :
    writeBack cfg true data R3 romx nbB RX =
      R3.take (if cfg.padValue = UNSPECIFIED then 0x150 else R3.length) ++
      data.drop (if cfg.padValue = UNSPECIFIED then 0x150 else R3.length) ++
      (if cfg.padValue ≠ UNSPECIFIED
       then List.replicate ((nbB - 1) * BANK_SIZE - RX) cfg.padValue
       else []) := by
  unfold writeBack
  rw [if_pos rfl]

theorem writeBack_eq_pipe (cfg : Config) (data R3 romx : List Nat)
    (nbB RX : Nat) :
    writeBack cfg false data R3 romx nbB RX =
      R3 ++ romx ++
      (if cfg.padValue ≠ UNSPECIFIED
       then List.replicate ((nbB - 1) * BANK_SIZE - RX) cfg.padValue
       else []) := by
  unfold writeBack
  rw [if_neg (by simp)]

/-- Offsets at or beyond the header are unaffected by the two checksum
stages. -/
theorem drop150_fix (cfg : Config) (sk : Bool) (data r : List Nat) (g : Nat) :
    (fixGlobalSum cfg sk data (fixHeaderSum cfg r) g).drop 0x150 =
      r.drop 0x150 := by
  refine ext_of_getD _ _ (by
    rw [List.length_drop, List.length_drop, fixGlobalSum_length,
      fixHeaderSum_length]) ?_
  intro j hj
  rw [getD_drop, getD_drop,
    fixGlobalSum_getD _ _ _ _ _ _ (by omega) (by omega),
    fixHeaderSum_getD _ _ _ (by omega)]

/-- Offsets at or beyond the header are unaffected by the header edits. -/
theorem applyEdits_drop150 (cfg : Config) (r : List Nat) (hwf : cfg.WF)
    (hr : 0x150 ≤ r.length) :
    (applyEdits cfg r).drop 0x150 = r.drop 0x150 := by
  refine ext_of_getD _ _ (by
    rw [List.length_drop, List.length_drop, applyEdits_length cfg r hwf hr]) ?_
  intro j hj
  rw [getD_drop, getD_drop]
  refine applyEdits_getD cfg r _ hwf hr ?_
  intro ht
  have := touched_lt cfg _ hwf ht
  omega

theorem processFile_global_seek (cfg : Config) (data out : List Nat)
    (hwf : cfg.WF)
    (hg : cfg.fixSpec &&& (FIX_GLOBAL_SUM ||| TRASH_GLOBAL_SUM) ≠ 0)
    (hok : processFile cfg true data = ProcOut.ok out) :
    out.getD 0x14e 0 * 0x100 + out.getD 0x14f 0 =
      (if cfg.fixSpec &&& TRASH_GLOBAL_SUM ≠ 0
       then 0xFFFF - ((out.set 0x14e 0).set 0x14f 0).sum % 0x10000
       else ((out.set 0x14e 0).set 0x14f 0).sum % 0x10000) := by
  obtain ⟨hlen, hcap, hout⟩ := processFile_ok_elim_seek cfg data out hok
  rw [finishFile_eq] at hout
  set T := data.take BANK_SIZE with hT
  set E := applyEdits cfg T with hE
  set NB := (data.length + (BANK_SIZE - 1)) / BANK_SIZE with hNB
  set RX := data.length - BANK_SIZE with hRX
  set P := padStage cfg E NB RX 0 with hP
  set r := fixHeaderSum cfg P.1 with hr
  set R3 := fixGlobalSum cfg true data r P.2.2 with hR3d
  set z := (r.set 0x14e 0).set 0x14f 0 with hzd
  have h150 : 0x150 ≤ T.length := by
    rw [hT, List.length_take]
    simp only [BANK_SIZE]
    omega
  have hel : E.length = T.length := by
    rw [hE]
    exact applyEdits_length cfg T hwf h150
  have htl : T.length = min BANK_SIZE data.length := by
    rw [hT]
    exact List.length_take _ _
  have hPge : E.length ≤ P.1.length := by
    rw [hP]
    exact padStage_length_ge cfg E NB RX 0
  have hrlen : r.length = P.1.length := by
    rw [hr]
    exact fixHeaderSum_length cfg P.1
  have hrge : 0x150 ≤ r.length := by omega
  have hzlen : z.length = r.length := by
    rw [hzd, List.length_set, List.length_set]
  have hzE : z.getD 0x14e 0 = 0 := by
    rw [hzd, getD_set_ne _ _ _ _ (by omega), getD_set_self _ _ _ (by omega)]
  have hzF : z.getD 0x14f 0 = 0 := by
    rw [hzd, getD_set_self _ _ _ (by rw [List.length_set]; omega)]
  obtain ⟨gg, hggval, hstore⟩ := fixGlobalSum_eq_store cfg true data r P.2.2 hg
  rw [← hzd] at hggval hstore
  rw [← hR3d] at hstore
  rw [if_pos (rfl : true = true)] at hggval
  have hR3len : R3.length = P.1.length := by
    rw [hstore, List.length_set, List.length_set, hzlen, hrlen]
  have hR3ge : 0x150 ≤ R3.length := by omega
  have hR3E : R3.getD 0x14e 0 = gg / 0x100 := by
    rw [hstore, getD_set_ne _ _ _ _ (by omega),
      getD_set_self _ _ _ (by omega)]
  have hR3F : R3.getD 0x14f 0 = gg % 0x100 := by
    rw [hstore, getD_set_self _ _ _ (by rw [List.length_set]; omega)]
  have s1 := sum_set_add z 0x14e (gg / 0x100) (by omega)
  have s2 := sum_set_add (z.set 0x14e (gg / 0x100)) 0x14f (gg % 0x100)
    (by rw [List.length_set]; omega)
  have s3 : (z.set 0x14e (gg / 0x100)).getD 0x14f 0 = 0 := by
    rw [getD_set_ne _ _ _ _ (by omega), hzF]
  have hR3sum : R3.sum = z.sum + gg / 0x100 + gg % 0x100 := by
    rw [hstore]
    omega
  have hcond : (0x14e : Nat) <
      (if cfg.padValue = UNSPECIFIED then 0x150 else R3.length) := by
    split
    · omega
    · omega
  have hcondf : (0x14f : Nat) <
      (if cfg.padValue = UNSPECIFIED then 0x150 else R3.length) := by
    split
    · omega
    · omega
  have houtE : out.getD 0x14e 0 = gg / 0x100 := by
    rw [hout, writeBack_getD_seek cfg data R3 [] P.2.1 RX 0x14e hR3ge (by omega),
      if_pos hcond, hR3E]
  have houtF : out.getD 0x14f 0 = gg % 0x100 := by
    rw [hout, writeBack_getD_seek cfg data R3 [] P.2.1 RX 0x14f hR3ge (by omega),
      if_pos hcondf, hR3F]
  have houtlen : 0x150 ≤ out.length := by
    rw [hout, writeBack_eq_seek]
    by_cases hp : cfg.padValue = UNSPECIFIED
    · rw [if_pos hp, if_neg (show ¬ cfg.padValue ≠ UNSPECIFIED from by
        simp [hp]), List.append_nil, List.length_append, List.length_take]
      omega
    · rw [if_neg hp, List.take_length, List.length_append, List.length_append]
      omega
  have z1 := sum_set_add out 0x14e 0 (by omega)
  have z2 := sum_set_add (out.set 0x14e 0) 0x14f 0
    (by rw [List.length_set]; omega)
  have z3 : (out.set 0x14e 0).getD 0x14f 0 = out.getD 0x14f 0 :=
    getD_set_ne _ _ _ _ (by omega)
  have hzero : ((out.set 0x14e 0).set 0x14f 0).sum + gg / 0x100 + gg % 0x100 =
      out.sum := by omega
  rw [houtE, houtF]
  by_cases hp : cfg.padValue = UNSPECIFIED
  · have hPu := padStage_unspec cfg E NB RX 0 hp
    rw [← hP] at hPu
    have hP1 : P.1 = E := by rw [hPu]
    have hP22 : P.2.2 = 0 := by rw [hPu]
    have houtsum : out.sum = (R3.take 0x150).sum + (data.drop 0x150).sum := by
      rw [hout, writeBack_eq_seek, if_pos hp,
        if_neg (show ¬ cfg.padValue ≠ UNSPECIFIED from by simp [hp]),
        List.append_nil, List.sum_append]
    have htd : (R3.take 0x150).sum + (R3.drop 0x150).sum = R3.sum :=
      List.sum_take_add_sum_drop _ _
    have hd1 : R3.drop 0x150 = P.1.drop 0x150 := by
      rw [hR3d, hr]
      exact drop150_fix cfg true data P.1 P.2.2
    have hd2 : P.1.drop 0x150 = T.drop 0x150 := by
      rw [hP1, hE]
      exact applyEdits_drop150 cfg T hwf h150
    have hds : (R3.drop 0x150).sum = (T.drop 0x150).sum := by
      rw [hd1, hd2]
    have hsplit : data.drop 0x150 = T.drop 0x150 ++ data.drop BANK_SIZE := by
      rw [hT]
      exact drop_split data 0x150 BANK_SIZE
        (by simp only [BANK_SIZE]; omega) (by omega)
    have hsplits : (data.drop 0x150).sum =
        (T.drop 0x150).sum + (data.drop BANK_SIZE).sum := by
      rw [hsplit, List.sum_append]
    have hzsum : ((out.set 0x14e 0).set 0x14f 0).sum =
        z.sum + (data.drop BANK_SIZE).sum := by omega
    rw [hzsum]
    rw [hP22] at hggval
    by_cases ht : cfg.fixSpec &&& TRASH_GLOBAL_SUM ≠ 0
    · rw [if_pos ht] at hggval ⊢
      omega
    · rw [if_neg ht] at hggval ⊢
      omega
  · have h1 : 1 ≤ NB := by
      rw [hNB]
      simp only [BANK_SIZE]
      omega
    have h2 : NB ≤ 0x10000 := by
      rw [hNB]
      simp only [BANK_SIZE] at hcap ⊢
      omega
    have hrE : 0x150 ≤ E.length := by omega
    have hrbE : E.length ≤ BANK_SIZE := by
      simp only [BANK_SIZE] at htl ⊢
      omega
    obtain ⟨k, hk1, hk2, hk3, hk4, hk5, hk6, hk7⟩ :=
      padStage_spec cfg E NB RX 0 hp h1 h2 hrE hrbE
    rw [← hP] at hk1 hk5 hk7
    have hR3B : R3.length = BANK_SIZE := by
      by_cases hone : NB = 1
      · rw [hR3len, hk5, if_pos hone]
      · rw [hR3len, hk5, if_neg hone]
        rw [hNB] at hone
        simp only [BANK_SIZE] at hone hel htl ⊢
        omega
    have houtsum : out.sum = R3.sum + ((data.drop BANK_SIZE).sum +
        ((P.2.1 - 1) * BANK_SIZE - RX) * cfg.padValue) := by
      rw [hout, writeBack_eq_seek, if_neg hp, if_pos hp, List.take_length,
        hR3B, List.sum_append, List.sum_append, List.sum_replicate,
        smul_eq_mul]
      exact Nat.add_assoc _ _ _
    have hcomm : ((P.2.1 - 1) * BANK_SIZE - RX) * cfg.padValue =
        cfg.padValue * ((P.2.1 - 1) * BANK_SIZE - RX) := Nat.mul_comm _ _
    have hP22 : P.2.2 = cfg.padValue * ((P.2.1 - 1) * BANK_SIZE - RX) := by
      rw [hk7, hk1]
      omega
    have hzsum : ((out.set 0x14e 0).set 0x14f 0).sum =
        P.2.2 + z.sum + (data.drop BANK_SIZE).sum := by omega
    rw [hzsum]
    by_cases ht : cfg.fixSpec &&& TRASH_GLOBAL_SUM ≠ 0
    · rw [if_pos ht] at hggval ⊢
      omega
    · rw [if_neg ht] at hggval ⊢
      omega

set_option maxHeartbeats 1000000 in
theorem processFile_global_pipe (cfg : Config) (data out : List Nat)
    (hwf : cfg.WF)
    (hg : cfg.fixSpec &&& (FIX_GLOBAL_SUM ||| TRASH_GLOBAL_SUM) ≠ 0)
    (hok : processFile cfg false data = ProcOut.ok out) :
    out.getD 0x14e 0 * 0x100 + out.getD 0x14f 0 =
      (if cfg.fixSpec &&& TRASH_GLOBAL_SUM ≠ 0
       then 0xFFFF - ((out.set 0x14e 0).set 0x14f 0).sum % 0x10000
       else ((out.set 0x14e 0).set 0x14f 0).sum % 0x10000) := by
  obtain ⟨hlen, hcap, hout⟩ := processFile_ok_elim_pipe cfg data out hok
  rw [finishFile_eq] at hout
  set T := data.take BANK_SIZE with hT
  set D := data.drop BANK_SIZE with hD
  set E := applyEdits cfg T with hE
  set NB := (data.length + (BANK_SIZE - 1)) / BANK_SIZE with hNB
  set RX := data.length - BANK_SIZE with hRX
  set P := padStage cfg E NB RX D.sum with hP
  set r := fixHeaderSum cfg P.1 with hr
  set R3 := fixGlobalSum cfg false data r P.2.2 with hR3d
  set z := (r.set 0x14e 0).set 0x14f 0 with hzd
  have h150 : 0x150 ≤ T.length := by
    rw [hT, List.length_take]
    simp only [BANK_SIZE]
    omega
  have hel : E.length = T.length := by
    rw [hE]
    exact applyEdits_length cfg T hwf h150
  have htl : T.length = min BANK_SIZE data.length := by
    rw [hT]
    exact List.length_take _ _
  have hPge : E.length ≤ P.1.length := by
    rw [hP]
    exact padStage_length_ge cfg E NB RX D.sum
  have hrlen : r.length = P.1.length := by
    rw [hr]
    exact fixHeaderSum_length cfg P.1
  have hrge : 0x150 ≤ r.length := by omega
  have hzlen : z.length = r.length := by
    rw [hzd, List.length_set, List.length_set]
  have hzE : z.getD 0x14e 0 = 0 := by
    rw [hzd, getD_set_ne _ _ _ _ (by omega), getD_set_self _ _ _ (by omega)]
  have hzF : z.getD 0x14f 0 = 0 := by
    rw [hzd, getD_set_self _ _ _ (by rw [List.length_set]; omega)]
  obtain ⟨gg, hggval, hstore⟩ := fixGlobalSum_eq_store cfg false data r P.2.2 hg
  rw [← hzd] at hggval hstore
  rw [← hR3d] at hstore
  rw [if_neg (show ¬ (false = true) from by decide)] at hggval
  have hR3len : R3.length = P.1.length := by
    rw [hstore, List.length_set, List.length_set, hzlen, hrlen]
  have hR3ge : 0x150 ≤ R3.length := by omega
  have hR3E : R3.getD 0x14e 0 = gg / 0x100 := by
    rw [hstore, getD_set_ne _ _ _ _ (by omega),
      getD_set_self _ _ _ (by omega)]
  have hR3F : R3.getD 0x14f 0 = gg % 0x100 := by
    rw [hstore, getD_set_self _ _ _ (by rw [List.length_set]; omega)]
  have s1 := sum_set_add z 0x14e (gg / 0x100) (by omega)
  have s2 := sum_set_add (z.set 0x14e (gg / 0x100)) 0x14f (gg % 0x100)
    (by rw [List.length_set]; omega)
  have s3 : (z.set 0x14e (gg / 0x100)).getD 0x14f 0 = 0 := by
    rw [getD_set_ne _ _ _ _ (by omega), hzF]
  have hR3sum : R3.sum = z.sum + gg / 0x100 + gg % 0x100 := by
    rw [hstore]
    omega
  have houtE : out.getD 0x14e 0 = gg / 0x100 := by
    rw [hout, writeBack_getD_pipe cfg data R3 D P.2.1 RX 0x14e (by omega),
      if_pos (by omega), hR3E]
  have houtF : out.getD 0x14f 0 = gg % 0x100 := by
    rw [hout, writeBack_getD_pipe cfg data R3 D P.2.1 RX 0x14f (by omega),
      if_pos (by omega), hR3F]
  have houtlen : 0x150 ≤ out.length := by
    rw [hout, writeBack_eq_pipe, List.length_append, List.length_append]
    omega
  have z1 := sum_set_add out 0x14e 0 (by omega)
  have z2 := sum_set_add (out.set 0x14e 0) 0x14f 0
    (by rw [List.length_set]; omega)
  have z3 : (out.set 0x14e 0).getD 0x14f 0 = out.getD 0x14f 0 :=
    getD_set_ne _ _ _ _ (by omega)
  have hzero : ((out.set 0x14e 0).set 0x14f 0).sum + gg / 0x100 + gg % 0x100 =
      out.sum := by omega
  rw [houtE, houtF]
  by_cases hp : cfg.padValue = UNSPECIFIED
  · have hPu := padStage_unspec cfg E NB RX D.sum hp
    rw [← hP] at hPu
    have hP22 : P.2.2 = D.sum := by rw [hPu]
    have houtsum : out.sum = R3.sum + D.sum := by
      rw [hout, writeBack_eq_pipe,
        if_neg (show ¬ cfg.padValue ≠ UNSPECIFIED from by simp [hp]),
        List.append_nil, List.sum_append]
    have hzsum : ((out.set 0x14e 0).set 0x14f 0).sum = P.2.2 + z.sum := by
      omega
    rw [hzsum]
    by_cases ht : cfg.fixSpec &&& TRASH_GLOBAL_SUM ≠ 0
    · rw [if_pos ht] at hggval ⊢
      omega
    · rw [if_neg ht] at hggval ⊢
      omega
  · have h1 : 1 ≤ NB := by
      rw [hNB]
      simp only [BANK_SIZE]
      omega
    have h2 : NB ≤ 0x10000 := by
      rw [hNB]
      simp only [BANK_SIZE] at hcap ⊢
      omega
    have hrE : 0x150 ≤ E.length := by omega
    have hrbE : E.length ≤ BANK_SIZE := by
      simp only [BANK_SIZE] at htl ⊢
      omega
    obtain ⟨k, hk1, hk2, hk3, hk4, hk5, hk6, hk7⟩ :=
      padStage_spec cfg E NB RX D.sum hp h1 h2 hrE hrbE
    rw [← hP] at hk1 hk7
    have houtsum : out.sum = R3.sum + (D.sum +
        ((P.2.1 - 1) * BANK_SIZE - RX) * cfg.padValue) := by
      rw [hout, writeBack_eq_pipe, if_pos hp, List.sum_append,
        List.sum_append, List.sum_replicate, smul_eq_mul]
      exact Nat.add_assoc _ _ _
    have hcomm : ((P.2.1 - 1) * BANK_SIZE - RX) * cfg.padValue =
        cfg.padValue * ((P.2.1 - 1) * BANK_SIZE - RX) := Nat.mul_comm _ _
    have hP22 : P.2.2 = D.sum + cfg.padValue *
        ((P.2.1 - 1) * BANK_SIZE - RX) := by
      rw [hk7, hk1]
    have hzsum : ((out.set 0x14e 0).set 0x14f 0).sum = P.2.2 + z.sum := by
      omega
    rw [hzsum]
    by_cases ht : cfg.fixSpec &&& TRASH_GLOBAL_SUM ≠ 0
    · rw [if_pos ht] at hggval ⊢
      omega
    · rw [if_neg ht] at hggval ⊢
      omega

/-- C5: whenever a global-checksum fix or trash is requested, the 16-bit
value stored big endian at 0x14E-0x14F equals the 16-bit wrap-around sum
of every byte of the final output image, the two storage bytes
themselves counted as zero, identically on the seekable and the pipe
path; a trash request stores the bitwise complement (0xFFFF - sum)
instead. -/
theorem processFile_global_checksum (cfg : Config) (sk : Bool)
    (data out : List Nat) (hwf : cfg.WF)
    (hg : cfg.fixSpec &&& (FIX_GLOBAL_SUM ||| TRASH_GLOBAL_SUM) ≠ 0)
    (hok : processFile cfg sk data = ProcOut.ok out) :
    out.getD 0x14e 0 * 0x100 + out.getD 0x14f 0 =
      (if cfg.fixSpec &&& TRASH_GLOBAL_SUM ≠ 0
       then 0xFFFF - ((out.set 0x14e 0).set 0x14f 0).sum % 0x10000
       else ((out.set 0x14e 0).set 0x14f 0).sum % 0x10000) := by
  cases sk with
  | true => exact processFile_global_seek cfg data out hwf hg hok
  | false => exact processFile_global_pipe cfg data out hwf hg hok

/-- Configuration used by the C5 witness: fix the global checksum
only. -/
def cfgGW : Config :=
  ⟨FIX_GLOBAL_SUM, none, none, 0, none, false, 0x100, 0x100, true, 0x100, 0x100, 0x100⟩

set_option maxRecDepth 40000 in
/-- C5 witness on a concrete 336-byte image through the pipe path. -/
theorem processFile_global_checksum_witness :
    Config.WF cfgGW ∧
    cfgGW.fixSpec &&& (FIX_GLOBAL_SUM ||| TRASH_GLOBAL_SUM) ≠ 0 ∧
    processFile cfgGW false dataW336 =
      ProcOut.ok (okPayload (processFile cfgGW false dataW336)) ∧
    (okPayload (processFile cfgGW false dataW336)).getD 0x14e 0 * 0x100 +
        (okPayload (processFile cfgGW false dataW336)).getD 0x14f 0 =
      (if cfgGW.fixSpec &&& TRASH_GLOBAL_SUM ≠ 0
       then 0xFFFF - (((okPayload (processFile cfgGW false dataW336)).set
            0x14e 0).set 0x14f 0).sum % 0x10000
       else (((okPayload (processFile cfgGW false dataW336)).set
            0x14e 0).set 0x14f 0).sum % 0x10000) :=
  ⟨by decide, by decide, rfl,
    processFile_global_checksum cfgGW false dataW336
      (okPayload (processFile cfgGW false dataW336)) (by decide) (by decide)
      rfl⟩

/-! ## Case and separator insensitivity of the MBC parser -/

theorem canon_canon (c : Nat) : canon (canon c) = canon c := by
  unfold canon
  split_ifs <;> omega

theorem canon_two (c u v : Nat) (h1 : 65 ≤ u) (h2 : u ≤ 90) (h3 : v = u + 32) :
    (canon c = u ∨ canon c = v) ↔ (c = u ∨ c = v) := by
  subst h3
  unfold canon
  split_ifs <;> omega

theorem canon_digit (c d : Nat) (h1 : 48 ≤ d) (h2 : d ≤ 57) :
    canon c = d ↔ c = d := by
  unfold canon
  split_ifs <;> omega

theorem canon_digit_range (c : Nat) :
    (48 ≤ canon c ∧ canon c ≤ 57) ↔ (48 ≤ c ∧ c ≤ 57) := by
  unfold canon
  split_ifs <;> omega

theorem canon_oct_range (c : Nat) :
    (48 ≤ canon c ∧ canon c ≤ 55) ↔ (48 ≤ c ∧ c ≤ 55) := by
  unfold canon
  split_ifs <;> omega

theorem canon_sep (c : Nat) :
    (canon c = 32 ∨ canon c = 9 ∨ canon c = 95) ↔
      (c = 32 ∨ c = 9 ∨ c = 95) := by
  unfold canon
  split_ifs <;> omega

theorem canon_plus (c : Nat) : canon c = 43 ↔ c = 43 := by
  unfold canon
  split_ifs <;> omega

theorem canon_ws (c : Nat) :
    (canon c = 32 ∨ canon c = 9) ↔ (c = 32 ∨ c = 9 ∨ c = 95) := by
  unfold canon
  split_ifs <;> omega

theorem hexVal_canon (c : Nat) : hexVal (canon c) = hexVal c := by
  unfold canon
  by_cases h1 : 97 ≤ c ∧ c ≤ 122
  · rw [if_pos h1]
    unfold hexVal
    by_cases h2 : c ≤ 102
    · rw [if_neg (show ¬(48 ≤ c - 32 ∧ c - 32 ≤ 57) from by omega),
        if_pos (show 65 ≤ c - 32 ∧ c - 32 ≤ 70 from by omega),
        if_neg (show ¬(48 ≤ c ∧ c ≤ 57) from by omega),
        if_neg (show ¬(65 ≤ c ∧ c ≤ 70) from by omega),
        if_pos (show 97 ≤ c ∧ c ≤ 102 from by omega)]
      rw [show c - 32 - 55 = c - 87 from by omega]
    · rw [if_neg (show ¬(48 ≤ c - 32 ∧ c - 32 ≤ 57) from by omega),
        if_neg (show ¬(65 ≤ c - 32 ∧ c - 32 ≤ 70) from by omega),
        if_neg (show ¬(97 ≤ c - 32 ∧ c - 32 ≤ 102) from by omega),
        if_neg (show ¬(48 ≤ c ∧ c ≤ 57) from by omega),
        if_neg (show ¬(65 ≤ c ∧ c ≤ 70) from by omega),
        if_neg (show ¬(97 ≤ c ∧ c ≤ 102) from by omega)]
  · rw [if_neg h1]
    by_cases h95 : c = 95
    · rw [if_pos h95, h95]
      rfl
    · rw [if_neg h95]

theorem readMBCSlice_canon (pat l : List Nat) :
    readMBCSlice (l.map canon) pat =
      (readMBCSlice l pat).map (List.map canon) := by
  induction pat generalizing l with
  | nil => cases l <;> rfl
  | cons e pe ih =>
    cases l with
    | nil => rfl
    | cons c t =>
      simp only [List.map, readMBCSlice, canon_canon]
      split
      · exact ih t
      · rfl

theorem skipSep_canon (l : List Nat) :
    skipSep (l.map canon) = (skipSep l).map canon := by
  induction l with
  | nil => rfl
  | cons c t ih =>
    simp only [List.map, skipSep, canon_sep]
    split
    · exact ih
    · simp only [List.map]

theorem parseBase_canon (l : List Nat) :
    parseBase (l.map canon) =
      (parseBase l).map (fun p => (p.1, p.2.map canon)) := by
  cases l with
  | nil => rfl
  | cons c rest =>
    simp only [List.map, parseBase,
      canon_two c 82 114 (by norm_num) (by norm_num) (by norm_num),
      canon_two c 77 109 (by norm_num) (by norm_num) (by norm_num),
      canon_two c 80 112 (by norm_num) (by norm_num) (by norm_num),
      canon_two c 66 98 (by norm_num) (by norm_num) (by norm_num),
      canon_two c 84 116 (by norm_num) (by norm_num) (by norm_num),
      canon_two c 72 104 (by norm_num) (by norm_num) (by norm_num)]
    by_cases h82 : c = 82 ∨ c = 114
    · rw [if_pos h82, if_pos h82, readMBCSlice_canon]
      cases hr : readMBCSlice rest (strBytes "OM") with
      | none => rfl
      | some r1 =>
        simp only [Option.map_some']
        rw [skipSep_canon]
        cases hs : skipSep r1 with
        | nil => rfl
        | cons c2 r3 =>
          simp only [List.map,
            canon_two c2 79 111 (by norm_num) (by norm_num) (by norm_num)]
          by_cases h79 : c2 = 79 ∨ c2 = 111
          · rw [if_pos h79, if_pos h79, readMBCSlice_canon]
            cases readMBCSlice r3 (strBytes "NLY") <;> rfl
          · rw [if_neg h79, if_neg h79]
            rfl
    · rw [if_neg h82, if_neg h82]
      by_cases h77 : c = 77 ∨ c = 109
      · rw [if_pos h77, if_pos h77]
        cases rest with
        | nil => rfl
        | cons c2 r2 =>
          simp only [List.map,
            canon_two c2 66 98 (by norm_num) (by norm_num) (by norm_num),
            canon_two c2 77 109 (by norm_num) (by norm_num) (by norm_num)]
          by_cases hb : c2 = 66 ∨ c2 = 98
          · rw [if_pos hb, if_pos hb]
            cases r2 with
            | nil => rfl
            | cons c3 r3 =>
              simp only [List.map,
                canon_two c3 67 99 (by norm_num) (by norm_num) (by norm_num)]
              by_cases hc3 : c3 = 67 ∨ c3 = 99
              · rw [if_pos hc3, if_pos hc3]
                cases r3 with
                | nil => rfl
                | cons c4 r4 =>
                  simp only [List.map,
                    canon_digit c4 49 (by norm_num) (by norm_num),
                    canon_digit c4 50 (by norm_num) (by norm_num),
                    canon_digit c4 51 (by norm_num) (by norm_num),
                    canon_digit c4 53 (by norm_num) (by norm_num),
                    canon_digit c4 54 (by norm_num) (by norm_num),
                    canon_digit c4 55 (by norm_num) (by norm_num)]
                  split_ifs <;> rfl
              · rw [if_neg hc3, if_neg hc3]
                rfl
          · rw [if_neg hb, if_neg hb]
            by_cases hm : c2 = 77 ∨ c2 = 109
            · rw [if_pos hm, if_pos hm, readMBCSlice_canon]
              cases readMBCSlice r2 (strBytes "M01") <;> rfl
            · rw [if_neg hm, if_neg hm]
              rfl
      · rw [if_neg h77, if_neg h77]
        by_cases h80 : c = 80 ∨ c = 112
        · rw [if_pos h80, if_pos h80, readMBCSlice_canon]
          cases readMBCSlice rest (strBytes "OCKET CAMERA") <;> rfl
        · rw [if_neg h80, if_neg h80]
          by_cases h66 : c = 66 ∨ c = 98
          · rw [if_pos h66, if_pos h66, readMBCSlice_canon]
            cases readMBCSlice rest (strBytes "ANDAI TAMA5") <;> rfl
          · rw [if_neg h66, if_neg h66]
            by_cases h84 : c = 84 ∨ c = 116
            · rw [if_pos h84, if_pos h84, readMBCSlice_canon]
              cases readMBCSlice rest (strBytes "AMA5") <;> rfl
            · rw [if_neg h84, if_neg h84]
              by_cases h72 : c = 72 ∨ c = 104
              · rw [if_pos h72, if_pos h72, readMBCSlice_canon]
                cases readMBCSlice rest (strBytes "UC") with
                | none => rfl
                | some r1 =>
                  simp only [Option.map_some']
                  cases r1 with
                  | nil => rfl
                  | cons c2 r2 =>
                    simp only [List.map,
                      canon_digit c2 49 (by norm_num) (by norm_num),
                      canon_digit c2 51 (by norm_num) (by norm_num)]
                    split_ifs <;> rfl
              · rw [if_neg h72, if_neg h72]
                rfl

theorem parseOneFeature_canon (l : List Nat) :
    parseOneFeature (l.map canon) =
      (parseOneFeature l).map (fun p => (p.1, p.2.map canon)) := by
  cases l with
  | nil => rfl
  | cons c rest =>
    simp only [List.map, parseOneFeature,
      canon_two c 66 98 (by norm_num) (by norm_num) (by norm_num),
      canon_two c 82 114 (by norm_num) (by norm_num) (by norm_num),
      canon_two c 83 115 (by norm_num) (by norm_num) (by norm_num),
      canon_two c 84 116 (by norm_num) (by norm_num) (by norm_num)]
    by_cases h66 : c = 66 ∨ c = 98
    · rw [if_pos h66, if_pos h66, readMBCSlice_canon]
      cases readMBCSlice rest (strBytes "ATTERY") <;> rfl
    · rw [if_neg h66, if_neg h66]
      by_cases h82 : c = 82 ∨ c = 114
      · rw [if_pos h82, if_pos h82]
        cases rest with
        | nil => rfl
        | cons c2 r2 =>
          simp only [List.map,
            canon_two c2 85 117 (by norm_num) (by norm_num) (by norm_num),
            canon_two c2 65 97 (by norm_num) (by norm_num) (by norm_num)]
          by_cases hu : c2 = 85 ∨ c2 = 117
          · rw [if_pos hu, if_pos hu, readMBCSlice_canon]
            cases readMBCSlice r2 (strBytes "MBLE") <;> rfl
          · rw [if_neg hu, if_neg hu]
            by_cases ha : c2 = 65 ∨ c2 = 97
            · rw [if_pos ha, if_pos ha]
              cases r2 with
              | nil => rfl
              | cons c3 r3 =>
                simp only [List.map,
                  canon_two c3 77 109 (by norm_num) (by norm_num) (by norm_num)]
                split_ifs <;> rfl
            · rw [if_neg ha, if_neg ha]
              rfl
      · rw [if_neg h82, if_neg h82]
        by_cases h83 : c = 83 ∨ c = 115
        · rw [if_pos h83, if_pos h83, readMBCSlice_canon]
          cases readMBCSlice rest (strBytes "ENSOR") <;> rfl
        · rw [if_neg h83, if_neg h83]
          by_cases h84 : c = 84 ∨ c = 116
          · rw [if_pos h84, if_pos h84, readMBCSlice_canon]
            cases readMBCSlice rest (strBytes "IMER") <;> rfl
          · rw [if_neg h84, if_neg h84]
            rfl

theorem readFeaturesF_canon (fuel : Nat) (l : List Nat) (f : Nat) :
    readFeaturesF fuel (l.map canon) f = readFeaturesF fuel l f := by
  induction fuel generalizing l f with
  | zero => rfl
  | succ n ih =>
    simp only [readFeaturesF, skipSep_canon]
    cases hs : skipSep l with
    | nil => rfl
    | cons c rest =>
      simp only [List.map, canon_plus c]
      by_cases hp : c = 43
      · rw [if_pos hp, if_pos hp, skipSep_canon, parseOneFeature_canon]
        cases parseOneFeature (skipSep rest) with
        | none => rfl
        | some p =>
          obtain ⟨ff, r2⟩ := p
          simp only [Option.map_some']
          exact ih r2 (f ||| ff)
      · rw [if_neg hp, if_neg hp]

theorem afterTrim_canon (s : List Nat) :
    afterTrim (s.map canon) = afterTrim s := by
  unfold afterTrim
  rw [parseBase_canon]
  cases parseBase s with
  | none => rfl
  | some p =>
    obtain ⟨mbc, rest⟩ := p
    simp only [Option.map_some']
    unfold readFeatures
    rw [List.length_map, readFeaturesF_canon]

theorem digitsDec_canon (l : List Nat) (acc : Nat) :
    digitsDec (l.map canon) acc =
      ((digitsDec l acc).1, (digitsDec l acc).2.map canon) := by
  induction l generalizing acc with
  | nil => rfl
  | cons c t ih =>
    simp only [List.map, digitsDec, canon_digit_range c]
    split_ifs with h
    · have hcc : canon c = c := by unfold canon; split_ifs <;> omega
      rw [hcc]
      exact ih _
    · rfl

theorem digitsOct_canon (l : List Nat) (acc : Nat) :
    digitsOct (l.map canon) acc =
      ((digitsOct l acc).1, (digitsOct l acc).2.map canon) := by
  induction l generalizing acc with
  | nil => rfl
  | cons c t ih =>
    simp only [List.map, digitsOct, canon_oct_range c]
    split_ifs with h
    · have hcc : canon c = c := by unfold canon; split_ifs <;> omega
      rw [hcc]
      exact ih _
    · rfl

theorem digitsHex_canon (l : List Nat) (acc : Nat) :
    digitsHex (l.map canon) acc =
      ((digitsHex l acc).1, (digitsHex l acc).2.map canon) := by
  induction l generalizing acc with
  | nil => rfl
  | cons c t ih =>
    simp only [List.map, digitsHex, hexVal_canon]
    cases hexVal c with
    | none => rfl
    | some v => exact ih _

theorem strtoul0_head_ne (c : Nat) (t : List Nat) (h : c ≠ 48) :
    strtoul0 (c :: t) = digitsDec (c :: t) 0 := by
  unfold strtoul0
  split
  · rename_i heq
    exfalso
    injection heq with h1 h2
    exact h h1
  · rename_i heq
    exfalso
    injection heq with h1 h2
    exact h h1
  · rfl

theorem canon_two' (c u v : Nat) (h1 : 65 ≤ u) (h2 : u ≤ 90) (h3 : v = u + 32) :
    (canon c = v ∨ canon c = u) ↔ (c = v ∨ c = u) := by
  subst h3
  unfold canon
  split_ifs <;> omega

theorem strtoul0_canon (l : List Nat) :
    strtoul0 (l.map canon) = ((strtoul0 l).1, (strtoul0 l).2.map canon) := by
  cases l with
  | nil => rfl
  | cons c t =>
    by_cases h48 : c = 48
    · subst h48
      cases t with
      | nil => rfl
      | cons c2 t2 =>
        simp only [List.map, show canon 48 = 48 from rfl, strtoul0,
          canon_two' c2 88 120 (by norm_num) (by norm_num) (by norm_num)]
        by_cases hx : c2 = 120 ∨ c2 = 88
        · rw [if_pos hx, if_pos hx]
          cases t2 with
          | nil => rfl
          | cons d t3 =>
            simp only [List.map, hexVal_canon]
            by_cases hd : (hexVal d).isSome
            · rw [if_pos hd, if_pos hd]
              exact digitsHex_canon (d :: t3) 0
            · rw [if_neg hd, if_neg hd]
              rfl
        · rw [if_neg hx, if_neg hx]
          exact digitsOct_canon (c2 :: t2) 0
    · have hc : canon c ≠ 48 := fun hh =>
        h48 ((canon_digit c 48 (by norm_num) (by norm_num)).mp hh)
      rw [show (c :: t).map canon = canon c :: t.map canon from rfl,
        strtoul0_head_ne (canon c) _ hc, strtoul0_head_ne c t h48]
      exact digitsDec_canon (c :: t) 0

theorem parseMBCSym_canon (s : List Nat) (hv : parseMBCSym s < 0x100) :
    parseMBCSym (s.map canon) = parseMBCSym s := by
  induction s with
  | nil => rfl
  | cons c t ih =>
    by_cases hws : c = 32 ∨ c = 9
    · have h1 : parseMBCSym (c :: t) = parseMBCSym t := by
        unfold parseMBCSym trimLead
        rw [if_pos hws]
        cases t <;> rfl
      have h2 : parseMBCSym ((c :: t).map canon) = parseMBCSym (t.map canon) := by
        have hcc : canon c = c := by unfold canon; split_ifs <;> omega
        unfold parseMBCSym
        simp only [List.map, hcc]
        unfold trimLead
        rw [if_pos hws]
        cases hmc : List.map canon t <;> rfl
      rw [h1] at hv
      rw [h2, h1, ih hv]
    · by_cases h95 : c = 95
      · exfalso
        have hbad : parseMBCSym (c :: t) = MBC_BAD := by
          subst h95
          unfold parseMBCSym
          rw [show trimLead (95 :: t) = 95 :: t from by
            unfold trimLead
            rw [if_neg (by omega)]]
          unfold afterTrim
          rw [show parseBase (95 :: t) = none from rfl]
        rw [hbad] at hv
        simp only [MBC_BAD] at hv
        omega
      · have hnc : ¬ (canon c = 32 ∨ canon c = 9) := by
          intro hh
          rcases (canon_ws c).mp hh with h | h | h
          · exact hws (Or.inl h)
          · exact hws (Or.inr h)
          · exact h95 h
        have e1 : trimLead (c :: t) = c :: t := by
          unfold trimLead
          rw [if_neg hws]
        have e2 : trimLead (canon c :: t.map canon) = canon c :: t.map canon := by
          unfold trimLead
          rw [if_neg hnc]
        unfold parseMBCSym
        simp only [List.map]
        rw [e1, e2,
          show (canon c :: t.map canon) = (c :: t).map canon from rfl,
          afterTrim_canon]

theorem parseMBC_canon (s : List Nat) (hv : parseMBC s < 0x100) :
    parseMBC (s.map canon) = parseMBC s := by
  cases s with
  | nil => rfl
  | cons c t =>
    have hfst : (strtoul0 ((c :: t).map canon)).1 = (strtoul0 (c :: t)).1 := by
      rw [strtoul0_canon]
    have hsnd : (strtoul0 ((c :: t).map canon)).2 =
        (strtoul0 (c :: t)).2.map canon := by
      rw [strtoul0_canon]
    simp only [List.map_cons, parseMBC, canon_digit_range c]
    by_cases hd : 48 ≤ c ∧ c ≤ 57
    · rw [if_pos hd, if_pos hd, ← List.map_cons]
      rw [hsnd, hfst]
      simp only [ne_eq, List.map_eq_nil_iff]
    · rw [if_neg hd, if_neg hd, ← List.map_cons]
      have hv' : parseMBCSym (c :: t) < 0x100 := by
        have he : parseMBC (c :: t) = parseMBCSym (c :: t) := by
          simp only [parseMBC]
          rw [if_neg hd]
        rw [he] at hv
        exact hv
      exact parseMBCSym_canon (c :: t) hv'

/-- C3: on inputs both accepted by the grammar (the parse yields a real
hardware-type code, below 0x100), `parseMBC` is insensitive to letter
case and to interchanging underscores and spaces at the same positions:
two spec strings with the same canonical image parse to the identical
code. -/
theorem parseMBC_canon_insensitive (s₁ s₂ : List Nat)
    (h1 : parseMBC s₁ < 0x100) (h2 : parseMBC s₂ < 0x100)
    (hc : s₁.map canon = s₂.map canon) :
    parseMBC s₁ = parseMBC s₂ := by
  rw [← parseMBC_canon s₁ h1, ← parseMBC_canon s₂ h2, hc]

set_option maxRecDepth 8000 in
/-- C3 witness: `"POCKET CAMERA"` and `"pocket_camera"` differ only by
case and an underscore for the space, and parse to the same code. -/
theorem parseMBC_canon_insensitive_witness :
    parseMBC (strBytes "POCKET CAMERA") < 0x100 ∧
    parseMBC (strBytes "pocket_camera") < 0x100 ∧
    (strBytes "POCKET CAMERA").map canon = (strBytes "pocket_camera").map canon ∧
    parseMBC (strBytes "POCKET CAMERA") = parseMBC (strBytes "pocket_camera") :=
  ⟨by decide, by decide, by decide,
    parseMBC_canon_insensitive _ _ (by decide) (by decide) (by decide)⟩

